import Mathlib

set_option maxHeartbeats 1000000
set_option maxRecDepth 10000

/-!
Verification of the Chromium `base::JSONReader` (JSON parsing engine) against
its natural-language specification.  The reader implementation is embedded
shallowly: the input is a list of bytes, the parser is a fused
tokenizer/recursive-descent parser threading an explicit cursor
(remaining input, 1-based line, 1-based column counted in input code points)
and an explicit container-nesting depth bounded by 100.

The reader's implementation file is not part of the sampled sources (only its
unit tests are), so every definition below is modelled from the specification
text, cross-checked against the expectations recorded in
`src/base/json/json_reader_unittest.cc`.
-/

namespace ChromiumJson

/-- Modelled from the spec: the external Value model, a tagged-union tree with
variants Null, Boolean, Integer, Double, String, List, Dictionary.  Strings are
lists of Unicode code points (decoded characters, explicit length, may contain
NUL).  Doubles are represented by exact rational values of the numeric
literals.  The Dictionary is a key-ordered map (unique string keys, sorted, as
in `std::map`); later insertions overwrite earlier ones for the same key. -/
inductive Value where
  | nullV : Value
  | boolean : Bool → Value
  | integer : Int → Value
  | double : Rat → Value
  | str : List Nat → Value
  | list : List Value → Value
  | dict : List (List Nat × Value) → Value

/-- Modelled from the spec: the closed enumeration of error kinds
(section 7 taxonomy). -/
inductive ErrKind where
  | syntaxError : ErrKind
  | invalidEscape : ErrKind
  | tooMuchNesting : ErrKind
  | trailingComma : ErrKind
  | unquotedDictionaryKey : ErrKind
  | badRootElementType : ErrKind
  | unexpectedDataAfterRoot : ErrKind
  | unknownError : ErrKind
deriving DecidableEq, Repr

/-- Modelled from the spec: the structured error record
(kind, 1-based line, 1-based column). -/
structure Err where
  kind : ErrKind
  line : Nat
  col : Nat
deriving DecidableEq, Repr

/-- Whitespace characters skipped by the tokenizer: space, tab, LF, CR. -/
def isWsChar (c : Nat) : Bool :=
  c == 32 || c == 9 || c == 10 || c == 13

/-- ASCII decimal digit. -/
def isDigit (c : Nat) : Bool :=
  48 ≤ c && c ≤ 57

/-- ASCII hexadecimal digit. -/
def isHexDig (c : Nat) : Bool :=
  (48 ≤ c && c ≤ 57) || (65 ≤ c && c ≤ 70) || (97 ≤ c && c ≤ 102)

/-- Numeric value of an ASCII hexadecimal digit. -/
def hexVal (c : Nat) : Nat :=
  if c ≤ 57 then c - 48 else if c ≤ 70 then c - 55 else c - 87

/-- Mode of the insignificant-content skipper: ordinary scanning, inside a
block comment, or inside a line comment. -/
inductive SkipMode where
  | normal : SkipMode
  | inBlock : SkipMode
  | inLine : SkipMode
deriving DecidableEq, Repr

/-- Modelled from the spec: skip insignificant content (whitespace and
comments) wherever whitespace is permitted.  `\n` is a line break (line
increments, column resets to 1); a lone `\r` is ordinary whitespace.  `/*`
opens a block comment closed by `*/` (end of input first is an error); `//`
opens a line comment closed by `\n` or end of input.  Returns the updated
line, column and remaining input. -/
def skipIns (m : SkipMode) (line col : Nat) : List Nat → Except Err (Nat × Nat × List Nat)
  | [] =>
    match m with
    | .normal => .ok (line, col, [])
    | .inBlock => .error ⟨.syntaxError, line, col⟩
    | .inLine => .ok (line, col, [])
  | c :: rest =>
    match m with
    | .normal =>
      if c == 10 then skipIns .normal (line + 1) 1 rest
      else if isWsChar c then skipIns .normal line (col + 1) rest
      else if c == 47 then
        match rest with
        | 42 :: rest2 => skipIns .inBlock line (col + 2) rest2
        | 47 :: rest2 => skipIns .inLine line (col + 2) rest2
        | _ => .ok (line, col, c :: rest)
      else .ok (line, col, c :: rest)
    | .inBlock =>
      if c == 42 then
        match rest with
        | 47 :: rest2 => skipIns .normal line (col + 2) rest2
        | r => skipIns .inBlock line (col + 1) r
      else if c == 10 then skipIns .inBlock (line + 1) 1 rest
      else skipIns .inBlock line (col + 1) rest
    | .inLine =>
      if c == 10 then skipIns .normal (line + 1) 1 rest
      else skipIns .inLine line (col + 1) rest

mutual

/-- Modelled from the spec: the string-literal scanner, entered just after the
opening quote.  Decodes the escape sequences `\" \\ \/ \b \f \n \r \t \v`,
`\xHH` (two hex digits) and `\uHHHH` (four hex digits, with UTF-16 surrogate
pairs combined), reports `kInvalidEscape` at the character following the
backslash otherwise, validates raw bytes between escapes as strict UTF-8
(overlong encodings and surrogate encodings rejected), and stops at the
closing quote.  Accumulates decoded code points in `acc`. -/
def parseStr (line col : Nat) (input : List Nat) (acc : List Nat) :
    Except Err (List Nat × Nat × Nat × List Nat) :=
  match input with
  | [] => .error ⟨.syntaxError, line, col⟩
  | c :: rest =>
    if c == 34 then .ok (acc, line, col + 1, rest)
    else if c == 92 then parseEsc line col rest acc
    else if c == 10 then parseStr (line + 1) 1 rest (acc ++ [10])
    else if c < 0x80 then parseStr line (col + 1) rest (acc ++ [c])
    else if 0xC2 ≤ c && c ≤ 0xDF then parseU2 c line col rest acc
    else if 0xE0 ≤ c && c ≤ 0xEF then parseU3 c line col rest acc
    else if 0xF0 ≤ c && c ≤ 0xF4 then parseU4 c line col rest acc
    else .error ⟨.syntaxError, line, col⟩
termination_by structural input

/-- Escape dispatch, entered just after a backslash at column `col`. -/
def parseEsc (line col : Nat) (input : List Nat) (acc : List Nat) :
    Except Err (List Nat × Nat × Nat × List Nat) :=
  match input with
  | [] => .error ⟨.invalidEscape, line, col + 1⟩
  | e :: r =>
    if e == 34 then parseStr line (col + 2) r (acc ++ [34])
    else if e == 92 then parseStr line (col + 2) r (acc ++ [92])
    else if e == 47 then parseStr line (col + 2) r (acc ++ [47])
    else if e == 98 then parseStr line (col + 2) r (acc ++ [8])
    else if e == 102 then parseStr line (col + 2) r (acc ++ [12])
    else if e == 110 then parseStr line (col + 2) r (acc ++ [10])
    else if e == 114 then parseStr line (col + 2) r (acc ++ [13])
    else if e == 116 then parseStr line (col + 2) r (acc ++ [9])
    else if e == 118 then parseStr line (col + 2) r (acc ++ [11])
    else if e == 120 then parseXEsc line col r acc
    else if e == 117 then parseUEsc line col r acc
    else .error ⟨.invalidEscape, line, col + 1⟩
termination_by structural input

/-- The `\xHH` escape: two hex digits after `\x`. -/
def parseXEsc (line col : Nat) (input : List Nat) (acc : List Nat) :
    Except Err (List Nat × Nat × Nat × List Nat) :=
  match input with
  | h1 :: h2 :: r2 =>
    if isHexDig h1 && isHexDig h2 then
      parseStr line (col + 4) r2 (acc ++ [16 * hexVal h1 + hexVal h2])
    else .error ⟨.invalidEscape, line, col + 1⟩
  | _ => .error ⟨.invalidEscape, line, col + 1⟩
termination_by structural input

/-- The `\uHHHH` escape: four hex digits after `\u`, with surrogate
handling. -/
def parseUEsc (line col : Nat) (input : List Nat) (acc : List Nat) :
    Except Err (List Nat × Nat × Nat × List Nat) :=
  match input with
  | h1 :: h2 :: h3 :: h4 :: r2 =>
    if isHexDig h1 && isHexDig h2 && isHexDig h3 && isHexDig h4 then
      let u := 4096 * hexVal h1 + 256 * hexVal h2 + 16 * hexVal h3 + hexVal h4
      if 0xD800 ≤ u && u ≤ 0xDBFF then parseLowSurr u line col r2 acc
      else if 0xDC00 ≤ u && u ≤ 0xDFFF then .error ⟨.invalidEscape, line, col + 1⟩
      else parseStr line (col + 6) r2 (acc ++ [u])
    else .error ⟨.invalidEscape, line, col + 1⟩
  | _ => .error ⟨.invalidEscape, line, col + 1⟩
termination_by structural input

/-- A two-byte UTF-8 sequence with lead byte `c` (0xC2–0xDF). -/
def parseU2 (c : Nat) (line col : Nat) (input : List Nat) (acc : List Nat) :
    Except Err (List Nat × Nat × Nat × List Nat) :=
  match input with
  | b2 :: rest2 =>
    if 0x80 ≤ b2 && b2 ≤ 0xBF then
      parseStr line (col + 1) rest2 (acc ++ [64 * (c - 0xC0) + (b2 - 0x80)])
    else .error ⟨.syntaxError, line, col⟩
  | _ => .error ⟨.syntaxError, line, col⟩
termination_by structural input

/-- A three-byte UTF-8 sequence with lead byte `c` (0xE0–0xEF); the
continuation ranges exclude overlong encodings and surrogates. -/
def parseU3 (c : Nat) (line col : Nat) (input : List Nat) (acc : List Nat) :
    Except Err (List Nat × Nat × Nat × List Nat) :=
  match input with
  | b2 :: b3 :: rest2 =>
    if (if c == 0xE0 then 0xA0 ≤ b2 && b2 ≤ 0xBF
        else if c == 0xED then 0x80 ≤ b2 && b2 ≤ 0x9F
        else 0x80 ≤ b2 && b2 ≤ 0xBF) && (0x80 ≤ b3 && b3 ≤ 0xBF) then
      parseStr line (col + 1) rest2
        (acc ++ [4096 * (c - 0xE0) + 64 * (b2 - 0x80) + (b3 - 0x80)])
    else .error ⟨.syntaxError, line, col⟩
  | _ => .error ⟨.syntaxError, line, col⟩
termination_by structural input

/-- A four-byte UTF-8 sequence with lead byte `c` (0xF0–0xF4); the
continuation ranges exclude overlong encodings and values beyond
U+10FFFF. -/
def parseU4 (c : Nat) (line col : Nat) (input : List Nat) (acc : List Nat) :
    Except Err (List Nat × Nat × Nat × List Nat) :=
  match input with
  | b2 :: b3 :: b4 :: rest2 =>
    if (if c == 0xF0 then 0x90 ≤ b2 && b2 ≤ 0xBF
        else if c == 0xF4 then 0x80 ≤ b2 && b2 ≤ 0x8F
        else 0x80 ≤ b2 && b2 ≤ 0xBF) &&
       (0x80 ≤ b3 && b3 ≤ 0xBF) && (0x80 ≤ b4 && b4 ≤ 0xBF) then
      parseStr line (col + 1) rest2
        (acc ++ [262144 * (c - 0xF0) + 4096 * (b2 - 0x80) + 64 * (b3 - 0x80) + (b4 - 0x80)])
    else .error ⟨.syntaxError, line, col⟩
  | _ => .error ⟨.syntaxError, line, col⟩
termination_by structural input

/-- After a high-surrogate `\uHHHH` escape, the only acceptable
continuation is a matching low-surrogate `\uHHHH` escape; the pair is
combined into one supplementary-plane code point. -/
def parseLowSurr (u : Nat) (line col : Nat) (input : List Nat) (acc : List Nat) :
    Except Err (List Nat × Nat × Nat × List Nat) :=
  match input with
  | 92 :: 117 :: g1 :: g2 :: g3 :: g4 :: r5 =>
    if isHexDig g1 && isHexDig g2 && isHexDig g3 && isHexDig g4 then
      let w := 4096 * hexVal g1 + 256 * hexVal g2 + 16 * hexVal g3 + hexVal g4
      if 0xDC00 ≤ w && w ≤ 0xDFFF then
        parseStr line (col + 12) r5
          (acc ++ [0x10000 + 1024 * (u - 0xD800) + (w - 0xDC00)])
      else .error ⟨.invalidEscape, line, col + 1⟩
    else .error ⟨.invalidEscape, line, col + 1⟩
  | _ => .error ⟨.invalidEscape, line, col + 1⟩
termination_by structural input

end

/-- Take the longest prefix of ASCII decimal digits. -/
def takeDigits : List Nat → List Nat × List Nat
  | [] => ([], [])
  | c :: rest =>
    if isDigit c then
      let (ds, r) := takeDigits rest
      (c :: ds, r)
    else ([], c :: rest)

/-- Numeric value of a most-significant-first list of ASCII digits. -/
def natOfDigits : List Nat → Nat :=
  fun ds => ds.foldl (fun a c => 10 * a + (c - 48)) 0

/-- Modelled from the spec: the IEEE double-overflow test.  A parsed decimal
value whose magnitude reaches 2^1024 evaluates to infinity as a
double-precision float and is rejected. -/
def doubleOverflows (q : Rat) : Bool :=
  ((2 ^ 1024 : Nat) : Int) * (q.den : Int) ≤ q.num.natAbs

/-- Head test: whether a byte list starts with the given byte. -/
def headIs (b : Nat) : List Nat → Bool
  | d :: _ => d == b
  | [] => false

/-- Head test: whether a byte list starts with an ASCII decimal digit. -/
def headIsDigit : List Nat → Bool
  | d :: _ => isDigit d
  | [] => false

/-- Modelled from the spec: the number-literal parser (strict RFC4627 grammar:
optional `-`; a single `0` or a nonzero digit followed by digits — leading
zeros rejected; optional `.` plus one or more digits; optional `e`/`E`,
optional sign, one or more digits).  If the literal has no fractional part and
no exponent and its value fits a signed 32-bit integer it yields an Integer;
otherwise it yields a Double holding the literal's value, rejected if that
value overflows to infinity. -/
def parseNumber (line col : Nat) (input : List Nat) :
    Except Err (Value × Nat × Nat × List Nat) :=
  let neg : Bool := headIs 45 input
  let rest1 : List Nat := if neg then input.tail else input
  match rest1 with
  | [] => .error ⟨.syntaxError, line, col⟩
  | c :: r =>
    let intRes : Except Err (List Nat × List Nat) :=
      if c == 48 then
        if headIsDigit r then .error ⟨.syntaxError, line, col⟩ else .ok ([48], r)
      else if isDigit c then
        let (ds, r2) := takeDigits r
        .ok (c :: ds, r2)
      else .error ⟨.syntaxError, line, col⟩
    match intRes with
    | .error e => .error e
    | .ok (intDs, rest2) =>
      let fracRes : Except Err (List Nat × List Nat) :=
        if headIs 46 rest2 then
          let (fds, r4) := takeDigits rest2.tail
          if fds.isEmpty then .error ⟨.syntaxError, line, col⟩ else .ok (fds, r4)
        else .ok ([], rest2)
      match fracRes with
      | .error e => .error e
      | .ok (fracDs, rest4) =>
        let expRes : Except Err (Bool × List Nat × List Nat) :=
          if headIs 101 rest4 || headIs 69 rest4 then
            let r5 := rest4.tail
            let signRes : Bool × List Nat :=
              if headIs 45 r5 then (true, r5.tail)
              else if headIs 43 r5 then (false, r5.tail)
              else (false, r5)
            let (eds, r7) := takeDigits signRes.2
            if eds.isEmpty then .error ⟨.syntaxError, line, col⟩
            else .ok (signRes.1, eds, r7)
          else .ok (false, [], rest4)
        match expRes with
        | .error e => .error e
        | .ok (expNeg, expDs, restF) =>
          let col' := col + (input.length - restF.length)
          if fracDs.isEmpty && expDs.isEmpty then
            let n : Int := (natOfDigits intDs : Int)
            let i : Int := if neg then -n else n
            if -2147483648 ≤ i && i ≤ 2147483647 then
              .ok (.integer i, line, col', restF)
            else if doubleOverflows (mkRat i 1) then .error ⟨.syntaxError, line, col⟩
            else .ok (.double (mkRat i 1), line, col', restF)
          else
            let mant : Int :=
              (if neg then -1 else 1) * (natOfDigits (intDs ++ fracDs) : Int)
            let e10 : Int :=
              (if expNeg then -(natOfDigits expDs : Int) else (natOfDigits expDs : Int)) -
                (fracDs.length : Int)
            let q : Rat :=
              if 0 ≤ e10 then mkRat (mant * ((10 ^ e10.toNat : Nat) : Int)) 1
              else mkRat mant (10 ^ (-e10).toNat)
            if doubleOverflows q then .error ⟨.syntaxError, line, col⟩
            else .ok (.double q, line, col', restF)

/-- Whether a value is a container (array or object). -/
def isContainer : Value → Bool
  | .list _ => true
  | .dict _ => true
  | _ => false

/-- Byte-lexicographic strict order on dictionary keys (the `std::map`
ordering; UTF-8 is code-point order preserving). -/
def keyLt : List Nat → List Nat → Bool
  | [], [] => false
  | [], _ :: _ => true
  | _ :: _, [] => false
  | a :: as, b :: bs =>
    if a < b then true else if b < a then false else keyLt as bs

/-- Modelled from the spec: dictionary insertion with unique keys — later
insertions overwrite earlier ones for the same key; keys kept sorted as in
`std::map`. -/
def dictInsert : List (List Nat × Value) → List Nat → Value → List (List Nat × Value)
  | [], k, v => [(k, v)]
  | (k', v') :: t, k, v =>
    if k = k' then (k, v) :: t
    else if keyLt k k' then (k, v) :: (k', v') :: t
    else (k', v') :: dictInsert t k v

/-- Modelled from the spec: the kStackLimit nesting bound. -/
def maxDepth : Nat := 100

mutual

/-- Modelled from the spec: parse one value starting at a significant
character.  Keywords `true`/`false`/`null` are exact matches; `"` starts a
string literal; `[`/`{` start containers (entering a container past depth 100
fails immediately with kTooMuchNesting at the position of the bracket);
digits and `-` start a number; anything else is a syntax error.  `fuel`
bounds the recursion and is never exhausted when at least
`2 * input.length + 2` is supplied. -/
def parseValue (fuel : Nat) (tc : Bool) (d : Nat) (line col : Nat) :
    List Nat → Except Err (Value × Nat × Nat × List Nat)
  | [] => .error ⟨.syntaxError, line, col⟩
  | 110 :: 117 :: 108 :: 108 :: rest => .ok (.nullV, line, col + 4, rest)
  | 116 :: 114 :: 117 :: 101 :: rest => .ok (.boolean true, line, col + 4, rest)
  | 102 :: 97 :: 108 :: 115 :: 101 :: rest => .ok (.boolean false, line, col + 5, rest)
  | 34 :: rest =>
    match parseStr line (col + 1) rest [] with
    | .error e => .error e
    | .ok (s, l2, c2, r2) => .ok (.str s, l2, c2, r2)
  | 91 :: rest =>
    if maxDepth ≤ d then .error ⟨.tooMuchNesting, line, col⟩
    else
      match skipIns .normal line (col + 1) rest with
      | .error e => .error e
      | .ok (l2, c2, r2) =>
        match r2 with
        | 93 :: r3 => .ok (.list [], l2, c2 + 1, r3)
        | _ =>
          match fuel with
          | 0 => .error ⟨.unknownError, l2, c2⟩
          | f + 1 => parseArrayElems f tc (d + 1) l2 c2 r2 []
  | 123 :: rest =>
    if maxDepth ≤ d then .error ⟨.tooMuchNesting, line, col⟩
    else
      match skipIns .normal line (col + 1) rest with
      | .error e => .error e
      | .ok (l2, c2, r2) =>
        match r2 with
        | 125 :: r3 => .ok (.dict [], l2, c2 + 1, r3)
        | _ =>
          match fuel with
          | 0 => .error ⟨.unknownError, l2, c2⟩
          | f + 1 => parseObjMembers f tc (d + 1) l2 c2 r2 []
  | c :: rest =>
    if c == 45 || isDigit c then parseNumber line col (c :: rest)
    else .error ⟨.syntaxError, line, col⟩
termination_by structural fuel

/-- Modelled from the spec: the array state machine after `[`, positioned at
the first character of an element.  Parses an element, skips insignificant
content, then expects `,` or `]`.  A comma must be followed by another element
unless `allow_trailing_comma` (`tc`) is set and the next token is the closing
bracket (otherwise kTrailingComma is reported at the bracket); empty elements
are never permitted. -/
def parseArrayElems (fuel : Nat) (tc : Bool) (d : Nat) (line col : Nat)
    (input : List Nat) (acc : List Value) : Except Err (Value × Nat × Nat × List Nat) :=
  match fuel with
  | 0 => .error ⟨.unknownError, line, col⟩
  | f + 1 =>
    match parseValue f tc d line col input with
    | .error e => .error e
    | .ok (v, l2, c2, r2) =>
      match skipIns .normal l2 c2 r2 with
      | .error e => .error e
      | .ok (l3, c3, r3) =>
        match r3 with
        | 93 :: r4 => .ok (.list (acc ++ [v]), l3, c3 + 1, r4)
        | 44 :: r4 =>
          match skipIns .normal l3 (c3 + 1) r4 with
          | .error e => .error e
          | .ok (l4, c4, r5) =>
            match r5 with
            | 93 :: r6 =>
              if tc then .ok (.list (acc ++ [v]), l4, c4 + 1, r6)
              else .error ⟨.trailingComma, l4, c4⟩
            | _ => parseArrayElems f tc d l4 c4 r5 (acc ++ [v])
        | _ => .error ⟨.syntaxError, l3, c3⟩
termination_by structural fuel

/-- Modelled from the spec: the object state machine after `{`, positioned at
the first character of a member.  Expects a quoted string key (otherwise
kUnquotedDictionaryKey at the key position), `:`, a value, then `,` or `}`
with the same trailing-comma rule as arrays.  Duplicate keys: last value
wins. -/
def parseObjMembers (fuel : Nat) (tc : Bool) (d : Nat) (line col : Nat)
    (input : List Nat) (acc : List (List Nat × Value)) :
    Except Err (Value × Nat × Nat × List Nat) :=
  match fuel with
  | 0 => .error ⟨.unknownError, line, col⟩
  | f + 1 =>
    match input with
    | 34 :: rest =>
      match parseStr line (col + 1) rest [] with
      | .error e => .error e
      | .ok (k, l2, c2, r2) =>
        match skipIns .normal l2 c2 r2 with
        | .error e => .error e
        | .ok (l3, c3, r3) =>
          match r3 with
          | 58 :: r4 =>
            match skipIns .normal l3 (c3 + 1) r4 with
            | .error e => .error e
            | .ok (l4, c4, r5) =>
              match parseValue f tc d l4 c4 r5 with
              | .error e => .error e
              | .ok (v, l5, c5, r6) =>
                match skipIns .normal l5 c5 r6 with
                | .error e => .error e
                | .ok (l6, c6, r7) =>
                  match r7 with
                  | 125 :: r8 => .ok (.dict (dictInsert acc k v), l6, c6 + 1, r8)
                  | 44 :: r8 =>
                    match skipIns .normal l6 (c6 + 1) r8 with
                    | .error e => .error e
                    | .ok (l7, c7, r9) =>
                      match r9 with
                      | 125 :: r10 =>
                        if tc then .ok (.dict (dictInsert acc k v), l7, c7 + 1, r10)
                        else .error ⟨.trailingComma, l7, c7⟩
                      | _ => parseObjMembers f tc d l7 c7 r9 (dictInsert acc k v)
                  | _ => .error ⟨.syntaxError, l6, c6⟩
          | _ => .error ⟨.syntaxError, l3, c3⟩
    | _ :: _ => .error ⟨.unquotedDictionaryKey, line, col⟩
    | [] => .error ⟨.syntaxError, line, col⟩
termination_by structural fuel

end

namespace JSONReader

/-- Modelled from the spec: `JSONReader::JsonToValue(json, check_root,
allow_trailing_comma)`.  Skips insignificant content, parses one value (with
all cursor and depth state freshly reset), optionally rejects a non-container
root with kBadRootElementType at the root token's position, and rejects any
remaining non-whitespace, non-comment content with kUnexpectedDataAfterRoot
at its position. -/
def JsonToValue (input : List Nat) (checkRoot : Bool) (tc : Bool) : Except Err Value :=
  match skipIns .normal 1 1 input with
  | .error e => .error e
  | .ok (l, c, rest) =>
    match parseValue (2 * input.length + 2) tc 0 l c rest with
    | .error e => .error e
    | .ok (v, l2, c2, r2) =>
      if checkRoot && !isContainer v then .error ⟨.badRootElementType, l, c⟩
      else
        match skipIns .normal l2 c2 r2 with
        | .error e => .error e
        | .ok (l3, c3, r3) =>
          match r3 with
          | [] => .ok v
          | _ => .error ⟨.unexpectedDataAfterRoot, l3, c3⟩

/-- Modelled from the spec: `JSONReader::Read(json, allow_trailing_comma)`,
the root-checking entry point. -/
def Read (input : List Nat) (tc : Bool) : Except Err Value :=
  JsonToValue input true tc

/-- Modelled from the spec: the numeric error codes of the
`JSONReader::JsonParseError` enumeration. -/
def errCode : ErrKind → Int
  | .badRootElementType => 1
  | .invalidEscape => 2
  | .syntaxError => 3
  | .trailingComma => 4
  | .tooMuchNesting => 5
  | .unexpectedDataAfterRoot => 6
  | .unquotedDictionaryKey => 8
  | .unknownError => 9

/-- Decimal digits (most significant first) of a natural number, as ASCII
bytes. -/
def natDigsAux (fuel n : Nat) : List Nat :=
  match fuel with
  | 0 => []
  | f + 1 => if n < 10 then [48 + n] else natDigsAux f (n / 10) ++ [48 + n % 10]

/-- Decimal digits (most significant first) of a natural number, as ASCII
bytes. -/
def natDigs (n : Nat) : List Nat := natDigsAux (n + 1) n

/-- Modelled from the spec: the fixed human-readable message text of each
error kind. -/
def kindText : ErrKind → List Nat
  | .syntaxError => [83, 121, 110, 116, 97, 120, 32, 101, 114, 114, 111, 114, 46]
  | k => [errCode k].map (fun i => 48 + i.toNat)

/-- Modelled from the spec: `JSONReader::FormatErrorMessage(line, column,
description)` — a single string combining the numeric position and the fixed
message text, as bytes. -/
def FormatErrorMessage (line col : Nat) (desc : List Nat) : List Nat :=
  [76, 105, 110, 101, 58, 32] ++ natDigs line ++
    [44, 32, 67, 111, 108, 117, 109, 110, 58, 32] ++ natDigs col ++ [44, 32] ++ desc

/-- Modelled from the spec: `JSONReader::ReadAndReturnError`.  The caller
supplies the current contents of its error-code and error-message slots; the
function returns the optional root value together with the final contents of
the two slots.  On success the slots are never touched; on failure they
receive the numeric error code and the formatted message. -/
def ReadAndReturnError (input : List Nat) (tc : Bool) (errorCode : Int)
    (errorMessage : List Nat) : Option Value × Int × List Nat :=
  match JsonToValue input true tc with
  | .ok v => (some v, errorCode, errorMessage)
  | .error e => (none, errCode e.kind, FormatErrorMessage e.line e.col (kindText e.kind))

end JSONReader

end ChromiumJson

/-- UTF-8 encoding of a Unicode code point, for building byte-level inputs. -/
def utf8Enc (u : Nat) : List Nat :=
  if u < 0x80 then [u]
  else if u < 0x800 then [0xC0 + u / 64, 0x80 + u % 64]
  else if u < 0x10000 then [0xE0 + u / 4096, 0x80 + u / 64 % 64, 0x80 + u % 64]
  else [0xF0 + u / 262144, 0x80 + u / 4096 % 64, 0x80 + u / 64 % 64, 0x80 + u % 64]

/-- Byte-list view of a Lean string (UTF-8). -/
def String.toBytes (s : String) : List Nat :=
  (s.data.map (fun ch => utf8Enc ch.toNat)).flatten

namespace ChromiumJson

/-- Whether a code point is a Unicode scalar value (encodable in UTF-8). -/
def scalarOk (u : Nat) : Bool :=
  u < 0x110000 && !(0xD800 ≤ u && u ≤ 0xDFFF)

/-- A byte sequence is valid UTF-8 exactly when it is the concatenation of the
standard UTF-8 encodings of a sequence of Unicode scalar values. -/
def IsUtf8 (bs : List Nat) : Prop :=
  ∃ us : List Nat, bs = (us.map utf8Enc).flatten ∧ ∀ u ∈ us, scalarOk u = true

mutual

/-- Modelled from the spec: the Value model's deep structural equality
(`Value::Equals`), fuelled to keep the recursion structural. -/
def veqF (fuel : Nat) : Value → Value → Bool
  | .nullV, .nullV => true
  | .boolean a, .boolean b => a == b
  | .integer a, .integer b => a == b
  | .double a, .double b => a == b
  | .str a, .str b => a == b
  | .list a, .list b =>
    match fuel with
    | 0 => false
    | f + 1 => veqLF f a b
  | .dict a, .dict b =>
    match fuel with
    | 0 => false
    | f + 1 => veqDF f a b
  | _, _ => false
termination_by structural fuel

/-- Element-wise equality of value lists. -/
def veqLF (fuel : Nat) : List Value → List Value → Bool
  | [], [] => true
  | x :: xs, y :: ys =>
    (match fuel with
     | 0 => false
     | f + 1 => veqF f x y && veqLF f xs ys)
  | _, _ => false
termination_by structural fuel

/-- Member-wise equality of dictionaries (key-sorted association lists). -/
def veqDF (fuel : Nat) : List (List Nat × Value) → List (List Nat × Value) → Bool
  | [], [] => true
  | (k1, v1) :: xs, (k2, v2) :: ys =>
    (match fuel with
     | 0 => false
     | f + 1 => k1 == k2 && veqF f v1 v2 && veqDF f xs ys)
  | _, _ => false
termination_by structural fuel

end

/-- Modelled from the spec: `Value::Equals`, deep structural equality (the
fuel only bounds the recursion; two trees are equal when some fuel suffices
to confirm it). -/
def Equals (a b : Value) : Prop := ∃ f, veqF f a b = true

/-- The `\uHHHH` escape (4 upper-case hex digits) denoting the BMP code
point `u`, used when rendering value trees back to JSON text. -/
def uEsc (u : Nat) : List Nat :=
  [92, 117, hexChar (u / 4096 % 16), hexChar (u / 256 % 16),
    hexChar (u / 16 % 16), hexChar (u % 16)]
where
  /-- Upper-case hexadecimal digit character of a nibble. -/
  hexChar (n : Nat) : Nat := if n < 10 then 48 + n else 55 + n

/-- Decimal rendering of an integer, as ASCII bytes. -/
def serInt (i : Int) : List Nat :=
  if i < 0 then 45 :: JSONReader.natDigs i.natAbs
  else JSONReader.natDigs i.natAbs

/-- Rendering of a string value: a quoted literal whose every character is
written as a `\uHHHH` escape. -/
def serStrBytes (s : List Nat) : List Nat :=
  34 :: (s.map uEsc).flatten ++ [34]

/-- Whether adjacent dictionary keys are strictly ascending (the `std::map`
invariant of the Value model's dictionaries). -/
def sortedK : List (List Nat × Value) → Bool
  | [] => true
  | [_] => true
  | (k1, _) :: (k2, v2) :: t => keyLt k1 k2 && sortedK ((k2, v2) :: t)

mutual

/-- Render a value tree back to JSON text.  When `tcF` is set, one trailing
comma is inserted before the closing bracket/brace of each non-empty
container. -/
def serVF (fuel : Nat) (tcF : Bool) : Value → List Nat
  | .nullV => [110, 117, 108, 108]
  | .boolean true => [116, 114, 117, 101]
  | .boolean false => [102, 97, 108, 115, 101]
  | .integer i => serInt i
  | .double _ => [48]
  | .str s => serStrBytes s
  | .list vs =>
    match fuel with
    | 0 => []
    | f + 1 => 91 :: (serLF f tcF vs ++ [93])
  | .dict kvs =>
    match fuel with
    | 0 => []
    | f + 1 => 123 :: (serMF f tcF kvs ++ [125])
termination_by structural fuel

/-- Render comma-separated array elements (with the optional trailing
comma after the final element). -/
def serLF (fuel : Nat) (tcF : Bool) : List Value → List Nat
  | [] => []
  | [v] =>
    (match fuel with
     | 0 => []
     | f + 1 => serVF f tcF v ++ (if tcF then [44] else []))
  | v :: v2 :: t =>
    (match fuel with
     | 0 => []
     | f + 1 => serVF f tcF v ++ 44 :: serLF f tcF (v2 :: t))
termination_by structural fuel

/-- Render comma-separated object members (escaped key, colon, value, with
the optional trailing comma after the final member). -/
def serMF (fuel : Nat) (tcF : Bool) : List (List Nat × Value) → List Nat
  | [] => []
  | [(k, v)] =>
    (match fuel with
     | 0 => []
     | f + 1 => serStrBytes k ++ 58 :: serVF f tcF v ++ (if tcF then [44] else []))
  | (k, v) :: m :: t =>
    (match fuel with
     | 0 => []
     | f + 1 => serStrBytes k ++ 58 :: serVF f tcF v ++ 44 :: serMF f tcF (m :: t))
termination_by structural fuel

end

/-- A BMP code point outside the surrogate range (representable by one
`\uHHHH` escape). -/
def bmpOk (u : Nat) : Bool :=
  u ≤ 0xFFFF && !(0xD800 ≤ u && u ≤ 0xDFFF)

mutual

/-- Well-formedness of a value tree about to be rendered at nesting depth
`d`: no doubles (their decimal rendering is not exact in general), integers
within the signed 32-bit range, strings over BMP non-surrogate code points,
containers nesting no deeper than the parser's depth limit of 100, and
dictionary keys strictly key-sorted. -/
def wfVF (fuel : Nat) (d : Nat) : Value → Bool
  | .nullV => true
  | .boolean _ => true
  | .integer i => decide (-2147483648 ≤ i) && decide (i ≤ 2147483647)
  | .double _ => false
  | .str s => s.all bmpOk
  | .list vs =>
    (match fuel with
     | 0 => false
     | f + 1 => (d + 1 ≤ 100 : Bool) && wfLF f (d + 1) vs)
  | .dict kvs =>
    (match fuel with
     | 0 => false
     | f + 1 => (d + 1 ≤ 100 : Bool) && sortedK kvs && wfMF f (d + 1) kvs)
termination_by structural fuel

/-- Well-formedness of every element of a value list. -/
def wfLF (fuel : Nat) (d : Nat) : List Value → Bool
  | [] => true
  | v :: t =>
    (match fuel with
     | 0 => false
     | f + 1 => wfVF f d v && wfLF f d t)
termination_by structural fuel

/-- Well-formedness of every member of a dictionary. -/
def wfMF (fuel : Nat) (d : Nat) : List (List Nat × Value) → Bool
  | [] => true
  | (k, v) :: t =>
    (match fuel with
     | 0 => false
     | f + 1 => k.all bmpOk && wfVF f d v && wfMF f d t)
termination_by structural fuel

end

/-- Whether a byte list contains the comment terminator `*/` as a substring. -/
def hasCloseComment : List Nat → Bool
  | [] => false
  | b :: rest => (b == 42 && headIs 47 rest) || hasCloseComment rest

/-- The input of `n` opening brackets followed by `n` closing brackets. -/
def nestInput (n : Nat) : List Nat := List.replicate n 91 ++ List.replicate n 93

/-- The value tree of `k + 1` nested arrays: `nestedVal 0` is the empty
array, `nestedVal (k+1)` a singleton array around `nestedVal k`. -/
def nestedVal : Nat → Value
  | 0 => .list []
  | k + 1 => .list [nestedVal k]

/-- The input `[` followed by `n` sibling entries `[],` and a final `[]]`:
an array of `n + 1` adjacent empty arrays. -/
def sibInput (n : Nat) : List Nat :=
  91 :: ((List.replicate n ([91, 93, 44] : List Nat)).flatten ++ [91, 93, 93])

/-- A byte list that does not continue a numeric literal: empty or starting
with a character that is neither a digit, a decimal point, nor an exponent
marker. -/
def headSep (l : List Nat) : Bool :=
  match l with
  | [] => true
  | d :: _ => !(isDigit d || d == 46 || d == 101 || d == 69)

end ChromiumJson

open ChromiumJson ChromiumJson.JSONReader

/-- The insignificant-content skipper passes through a significant
character (not whitespace, not a slash) untouched. -/
theorem skipIns_sig (l c c0 : Nat) (X : List Nat) (hw : isWsChar c0 = false) (h47 : c0 ≠ 47) :
    skipIns .normal l c (c0 :: X) = .ok (l, c, c0 :: X) := by
  simp only [isWsChar, Bool.or_eq_false_iff, beq_eq_false_iff_ne, ne_eq] at hw
  rw [skipIns.eq_def]
  simp [hw.1.1.1, hw.1.1.2, hw.1.2, hw.2, isWsChar, h47]

/-- Entering the `k + 1`-st consecutive opening bracket from depth
`100 - k` crosses the nesting limit: the parser stops with kTooMuchNesting
at the bracket where the limit is crossed. -/
theorem parseValue_deepNest (k : Nat) :
    ∀ (l c : Nat) (rest : List Nat) (fuel : Nat) (tc : Bool) (d : Nat),
    d + k = 100 → 2 * k + 2 ≤ fuel →
    parseValue fuel tc d l c (List.replicate (k + 1) 91 ++ rest) =
      .error ⟨.tooMuchNesting, l, c + k⟩ := by
  induction k with
  | zero =>
    intro l c rest fuel tc d hd hf
    have hd' : d = 100 := by omega
    subst hd'
    simp [parseValue, maxDepth]
  | succ k ih =>
    intro l c rest fuel tc d hd hf
    obtain ⟨f, rfl⟩ : ∃ f, fuel = f + 1 := ⟨fuel - 1, by omega⟩
    obtain ⟨g, rfl⟩ : ∃ g, f = g + 1 := ⟨f - 1, by omega⟩
    have h1 : List.replicate (k + 1 + 1) 91 ++ rest = 91 :: (List.replicate (k + 1) 91 ++ rest) := by
      simp [List.replicate_succ]
    have h2 : List.replicate (k + 1) 91 ++ rest = 91 :: (List.replicate k 91 ++ rest) := by
      simp [List.replicate_succ]
    rw [h1, parseValue]
    rw [if_neg (by simp [maxDepth]; omega)]
    rw [h2, skipIns_sig _ _ _ _ (by decide) (by decide)]
    simp only
    rw [← h2, parseArrayElems.eq_def]
    simp only
    rw [ih l (c + 1) rest g tc (d + 1) (by omega) (by omega)]
    simp
    omega

/-- Reading any input of `n ≥ 101` opening brackets followed by matching
closing brackets fails with kTooMuchNesting at line 1, column 101. -/
theorem read_nest_fail (n : Nat) (hn : 101 ≤ n) (tc : Bool) :
    Read (nestInput n) tc = .error ⟨.tooMuchNesting, 1, 101⟩ := by
  obtain ⟨m, rfl⟩ : ∃ m, n = 101 + m := ⟨n - 101, by omega⟩
  rw [Read, JsonToValue, nestInput]
  have hI : List.replicate (101 + m) 91 ++ List.replicate (101 + m) 93 =
      List.replicate (100 + 1) 91 ++ (List.replicate m 91 ++ List.replicate (101 + m) 93) := by
    rw [List.replicate_add, List.append_assoc]
  have hhead : List.replicate (101 + m) 91 ++ List.replicate (101 + m) 93 =
      91 :: (List.replicate (100 + m) 91 ++ List.replicate (101 + m) 93) := by
    rw [show 101 + m = (100 + m) + 1 from by omega, List.replicate_succ]
    simp
  rw [hhead, skipIns_sig _ _ _ _ (by decide) (by decide), ← hhead]
  simp only
  rw [hI, parseValue_deepNest 100 1 1 _ _ tc 0 (by omega) (by simp; omega)]

/-- A run of sibling `[],` entries always starts with an opening bracket. -/
theorem sib_cons (n : Nat) (X : List Nat) :
    ∃ T, (List.replicate n ([91, 93, 44] : List Nat)).flatten ++ (91 :: X) = 91 :: T := by
  cases n <;> simp [List.replicate_succ]

/-- The array state machine turns `n` sibling `[],` entries plus a final
`[]]` into `n + 1` adjacent empty arrays, at constant depth: sibling
containers at the same level do not accumulate depth. -/
theorem parseArrayElems_sibs (n : Nat) :
    ∀ (acc : List Value) (l c d fuel : Nat) (tc : Bool) (rest : List Nat),
    d ≤ 99 → 2 * n + 4 ≤ fuel →
    parseArrayElems fuel tc d l c
        ((List.replicate n ([91, 93, 44] : List Nat)).flatten ++ (91 :: 93 :: 93 :: rest)) acc =
      .ok (.list (acc ++ List.replicate (n + 1) (Value.list [])), l, c + (3 * n + 3), rest) := by
  induction n with
  | zero =>
    intro acc l c d fuel tc rest hd hf
    obtain ⟨f, rfl⟩ : ∃ f, fuel = f + 1 := ⟨fuel - 1, by omega⟩
    simp only [List.replicate, List.flatten_nil, List.nil_append]
    rw [parseArrayElems.eq_def]
    simp only
    rw [parseValue]
    rw [if_neg (by simp [maxDepth]; omega)]
    rw [skipIns_sig _ _ _ _ (by decide) (by decide)]
    simp only
    rw [skipIns_sig _ _ _ _ (by decide) (by decide)]
  | succ n ih =>
    intro acc l c d fuel tc rest hd hf
    obtain ⟨f, rfl⟩ : ∃ f, fuel = f + 1 := ⟨fuel - 1, by omega⟩
    have hfl : (List.replicate (n + 1) ([91, 93, 44] : List Nat)).flatten ++ (91 :: 93 :: 93 :: rest) =
        91 :: 93 :: 44 ::
          ((List.replicate n ([91, 93, 44] : List Nat)).flatten ++ (91 :: 93 :: 93 :: rest)) := by
      simp [List.replicate_succ]
    rw [hfl, parseArrayElems.eq_def]
    simp only
    rw [parseValue]
    rw [if_neg (by simp [maxDepth]; omega)]
    rw [skipIns_sig _ _ _ _ (by decide) (by decide)]
    simp only
    rw [skipIns_sig _ _ _ _ (by decide) (by decide)]
    simp only
    obtain ⟨T, hT⟩ := sib_cons n (93 :: 93 :: rest)
    rw [hT, skipIns_sig _ _ _ _ (by decide) (by decide)]
    simp only
    rw [← hT, ih (acc ++ [Value.list []]) l (c + 1 + 1 + 1) d f tc rest hd (by omega)]
    simp [List.replicate_succ, List.append_assoc]
    omega

/-- The total byte length of `n` sibling `[],` entries. -/
theorem flat3_len (n : Nat) :
    ((List.replicate n ([91, 93, 44] : List Nat)).flatten).length = 3 * n := by
  induction n with
  | zero => simp
  | succ m ih => simp [List.replicate_succ, ih]; omega

/-- Reading an array of `n + 1` adjacent empty sibling arrays succeeds with
the expected `n + 1`-element list. -/
theorem read_sibs (n : Nat) :
    Read (sibInput n) false = .ok (.list (List.replicate (n + 1) (Value.list []))) := by
  rw [Read, JsonToValue, sibInput]
  rw [skipIns_sig _ _ _ _ (by decide) (by decide)]
  simp only
  have hF : 2 * ((91 : Nat) ::
      ((List.replicate n ([91, 93, 44] : List Nat)).flatten ++ [91, 93, 93])).length + 2
      = (6 * n + 9) + 1 := by
    simp [flat3_len]; omega
  rw [hF, parseValue]
  rw [if_neg (by simp [maxDepth])]
  obtain ⟨T, hT⟩ := sib_cons n (93 :: 93 :: ([] : List Nat))
  rw [show ((91 : Nat) :: 93 :: 93 :: ([] : List Nat)) = [91, 93, 93] from rfl] at hT
  rw [hT, skipIns_sig _ _ _ _ (by decide) (by decide)]
  simp only
  rw [← hT]
  rw [show ([91, 93, 93] : List Nat) = 91 :: 93 :: 93 :: ([] : List Nat) from rfl]
  rw [parseArrayElems_sibs n [] 1 2 1 (6 * n + 9) false [] (by omega) (by omega)]
  simp [isContainer, skipIns]

/-- C1: an input of 101 nested empty arrays fails with kTooMuchNesting at
line 1, column 101, while 100 nested arrays parse successfully; an input of
1,000,000 opening brackets followed by 1,000,000 closing brackets fails with
the same reported error rather than crashing; and 5,000 adjacent `[],`
sibling entries inside one array parse into a 5001-element list (sibling
containers at the same level do not accumulate depth). -/
theorem claim_C1 :
    Read (nestInput 101) false = .error ⟨.tooMuchNesting, 1, 101⟩ ∧
    Read (nestInput 100) false = .ok (nestedVal 99) ∧
    Read (nestInput 1000000) false = .error ⟨.tooMuchNesting, 1, 101⟩ ∧
    Read (sibInput 5000) false = .ok (.list (List.replicate 5001 (Value.list []))) ∧
    (List.replicate 5001 (Value.list [])).length = 5001 :=
  ⟨read_nest_fail 101 (by omega) false, rfl, read_nest_fail 1000000 (by omega) false,
    read_sibs 5000, List.length_replicate 5001 (Value.list [])⟩

/-- Parsing with root checking disabled and succeeding with a non-container
value implies the root-checking parse of the same input fails with
kBadRootElementType (reported at the root token's position). -/
theorem jsonToValue_root_check (input : List Nat) (tc : Bool) (v : Value)
    (h : JsonToValue input false tc = .ok v) (hc : isContainer v = false) :
    ∃ l c, JsonToValue input true tc = .error ⟨.badRootElementType, l, c⟩ := by
  rw [JsonToValue] at h ⊢
  cases hsk : skipIns .normal 1 1 input with
  | error e => rw [hsk] at h; simp at h
  | ok t =>
    obtain ⟨l, c, rest⟩ := t
    rw [hsk] at h
    simp only at h ⊢
    cases hpv : parseValue (2 * input.length + 2) tc 0 l c rest with
    | error e => rw [hpv] at h; simp at h
    | ok t2 =>
      obtain ⟨v2, l2, c2, r2⟩ := t2
      rw [hpv] at h
      simp only [Bool.false_and, Bool.true_and] at h ⊢
      cases hsk2 : skipIns .normal l2 c2 r2 with
      | error e => rw [hsk2] at h; simp at h
      | ok t3 =>
        obtain ⟨l3, c3, r3⟩ := t3
        rw [hsk2] at h
        cases r3 with
        | nil =>
          simp only at h
          obtain rfl : v2 = v := by simpa using h
          refine ⟨l, c, ?_⟩
          simp [hc]
        | cons a r4 => simp at h

/-- C2: a top-level token that is not an array or object fails with
kBadRootElementType (for input `42` reported at line 1, column 1, through
both Read and ReadAndReturnError), and remaining non-whitespace content
after a fully parsed root fails with kUnexpectedDataAfterRoot (for
`{},{}` reported at line 1, column 3). -/
theorem claim_C2 :
    (∀ (input : List Nat) (tc : Bool) (v : Value),
       JsonToValue input false tc = .ok v → isContainer v = false →
       ∃ l c, JsonToValue input true tc = .error ⟨.badRootElementType, l, c⟩) ∧
    (∀ tc, Read (("null").toBytes) tc = .error ⟨.badRootElementType, 1, 1⟩) ∧
    (∀ tc, Read (("true").toBytes) tc = .error ⟨.badRootElementType, 1, 1⟩) ∧
    (∀ tc, Read (("false").toBytes) tc = .error ⟨.badRootElementType, 1, 1⟩) ∧
    (∀ tc, Read (("42").toBytes) tc = .error ⟨.badRootElementType, 1, 1⟩) ∧
    (∀ tc, Read (("\"root\"").toBytes) tc = .error ⟨.badRootElementType, 1, 1⟩) ∧
    (∀ tc, ReadAndReturnError (("42").toBytes) tc 0 [] =
      (none, errCode .badRootElementType, FormatErrorMessage 1 1 (kindText .badRootElementType))) ∧
    (∀ tc, Read (("\x7b\x7d,\x7b\x7d").toBytes) tc = .error ⟨.unexpectedDataAfterRoot, 1, 3⟩) ∧
    (∀ tc, ReadAndReturnError (("\x7b\x7d,\x7b\x7d").toBytes) tc 0 [] =
      (none, errCode .unexpectedDataAfterRoot,
        FormatErrorMessage 1 3 (kindText .unexpectedDataAfterRoot))) :=
  ⟨jsonToValue_root_check, fun tc => by cases tc <;> rfl, fun tc => by cases tc <;> rfl,
    fun tc => by cases tc <;> rfl, fun tc => by cases tc <;> rfl, fun tc => by cases tc <;> rfl,
    fun tc => by cases tc <;> rfl, fun tc => by cases tc <;> rfl, fun tc => by cases tc <;> rfl⟩

/-- Witness for C2 at input `4`: the root-checking parse rejects the bare
scalar accepted by the non-root-checking parse. -/
theorem claim_C2_witness :
    ∃ l c, JsonToValue (("4").toBytes) true false = .error ⟨.badRootElementType, l, c⟩ :=
  claim_C2.1 (("4").toBytes) false (.integer 4) (by rfl) (by rfl)

/-- Correctness of the decimal rendering: reading its own digits back
yields the number. -/
theorem natDigsAux_ofDigits (f : Nat) : ∀ n, n < f → natOfDigits (natDigsAux f n) = n := by
  induction f with
  | zero => intro n h; omega
  | succ f ih =>
    intro n h
    rw [natDigsAux]
    by_cases h10 : n < 10
    · simp [h10, natOfDigits]
    · rw [if_neg h10, natOfDigits, List.foldl_append]
      have : n / 10 < f := by omega
      have := ih (n / 10) this
      rw [natOfDigits] at this
      simp [this]
      omega

/-- Every byte of a decimal rendering is an ASCII digit. -/
theorem natDigsAux_digits (f : Nat) : ∀ n, n < f → ∀ d ∈ natDigsAux f n, 48 ≤ d ∧ d ≤ 57 := by
  induction f with
  | zero => intro n h; omega
  | succ f ih =>
    intro n h d hd
    rw [natDigsAux] at hd
    by_cases h10 : n < 10
    · simp [h10] at hd; omega
    · rw [if_neg h10] at hd
      simp at hd
      rcases hd with hd | hd
      · exact ih (n / 10) (by omega) d hd
      · omega

/-- The decimal rendering of a positive number starts with a nonzero
digit (no leading zeros). -/
theorem natDigsAux_head (f : Nat) : ∀ n, n < f → 1 ≤ n →
    ∃ d ds, natDigsAux f n = d :: ds ∧ 49 ≤ d ∧ d ≤ 57 := by
  induction f with
  | zero => intro n h; omega
  | succ f ih =>
    intro n h h1
    rw [natDigsAux]
    by_cases h10 : n < 10
    · exact ⟨48 + n, [], by simp [h10], by omega, by omega⟩
    · rw [if_neg h10]
      obtain ⟨d, ds, heq, hd1, hd2⟩ := ih (n / 10) (by omega) (by omega)
      exact ⟨d, ds ++ [48 + n % 10], by simp [heq], hd1, hd2⟩

/-- The digit scanner takes exactly a run of digits followed by a
non-numeric separator. -/
theorem takeDigits_append (ds : List Nat) (rest : List Nat)
    (hds : ∀ d ∈ ds, 48 ≤ d ∧ d ≤ 57) (hr : headSep rest = true) :
    takeDigits (ds ++ rest) = (ds, rest) := by
  induction ds with
  | nil =>
    cases rest with
    | nil => rfl
    | cons a t =>
      simp only [headSep, Bool.not_eq_true', Bool.or_eq_false_iff] at hr
      rw [List.nil_append, takeDigits, if_neg (by simp [hr.1.1])]
  | cons d t ih =>
    have hd := hds d (by simp)
    rw [List.cons_append, takeDigits, if_pos (by simp [isDigit]; omega)]
    rw [ih (fun x hx => hds x (by simp [hx]))]

/-- A value starting with an ASCII digit is dispatched to the
number-literal parser. -/
theorem parseValue_digit (d : Nat) (h1 : 48 ≤ d) (h2 : d ≤ 57)
    (fuel : Nat) (tc : Bool) (dep l c : Nat) (X : List Nat) :
    parseValue fuel tc dep l c (d :: X) = parseNumber l c (d :: X) := by
  interval_cases d <;>
    (rw [parseValue] <;> first
      | rw [if_pos (by decide)]
      | (intros; omega))

/-- A separator continues none of the numeric-literal components. -/
theorem headSep_heads (rest : List Nat) (hr : headSep rest = true) :
    headIsDigit rest = false ∧ headIs 46 rest = false ∧ headIs 101 rest = false ∧
      headIs 69 rest = false := by
  cases rest with
  | nil => simp [headIsDigit, headIs]
  | cons a t =>
    simp only [headSep, Bool.not_eq_true', Bool.or_eq_false_iff] at hr
    exact ⟨hr.1.1.1, hr.1.1.2, hr.1.2, hr.2⟩

@[simp] theorem headIs_cons (b d : Nat) (t : List Nat) : headIs b (d :: t) = (d == b) := rfl

@[simp] theorem headIsDigit_cons (d : Nat) (t : List Nat) : headIsDigit (d :: t) = isDigit d := rfl

/-- A rational with denominator 1 is its integer numerator. -/
theorem mkRat_one_int (i : Int) : mkRat i 1 = (i : Rat) := by
  rw [← Rat.divInt_one i, Rat.divInt.eq_def]
  rfl

/-- An integer below the IEEE double overflow threshold does not overflow. -/
theorem doubleOverflows_small (i : Int) (h : i.natAbs < 2 ^ 1024) :
    doubleOverflows (mkRat i 1) = false := by
  have hd : (mkRat i 1).den = 1 := by
    rw [Rat.mkRat_def]
    simp [Rat.normalize_eq]
  have hn : (mkRat i 1).num = i := by
    rw [Rat.mkRat_def]
    simp [Rat.normalize_eq]
  rw [doubleOverflows, hd, hn]
  simp only [Int.mul_one, decide_eq_false_iff_not, not_le]
  exact_mod_cast h

/-- A pure decimal integer literal (no fraction, no exponent) parses as an
Integer exactly when its value fits in a signed 32-bit integer, and as a
Double holding the same value otherwise. -/
theorem parseNumber_natDigs (n l c : Nat) (rest : List Nat)
    (hr : headSep rest = true) (hbig : n < 2 ^ 1024) :
    parseNumber l c (JSONReader.natDigs n ++ rest) =
      (if n ≤ 2147483647 then .ok (.integer n, l, c + (JSONReader.natDigs n).length, rest)
       else .ok (.double (n : Rat), l, c + (JSONReader.natDigs n).length, rest)) := by
  obtain ⟨hh1, hh2, hh3, hh4⟩ := headSep_heads rest hr
  rcases Nat.eq_zero_or_pos n with rfl | hn
  · rw [show JSONReader.natDigs 0 = [48] from rfl]
    simp [parseNumber, hh1, hh2, hh3, hh4, natOfDigits]
  · have hda := natDigsAux_digits (n + 1) n (by omega)
    obtain ⟨d, ds, heq, hd1, hd2⟩ := natDigsAux_head (n + 1) n (by omega) hn
    have heq' : JSONReader.natDigs n = d :: ds := by rw [JSONReader.natDigs]; exact heq
    have hds : ∀ x ∈ ds, 48 ≤ x ∧ x ≤ 57 := by
      intro x hx
      exact hda x (by rw [heq]; simp [hx])
    have hval : natOfDigits (d :: ds) = n := by
      rw [← heq']
      rw [JSONReader.natDigs]
      exact natDigsAux_ofDigits (n + 1) n (by omega)
    rw [heq', parseNumber]
    simp only [List.cons_append, List.tail_cons, headIs_cons,
      show (d == 45) = false from by simp; omega,
      show (d == 48) = false from by simp; omega,
      show isDigit d = true from by simp [isDigit]; omega,
      Bool.false_eq_true, if_false, if_true]
    rw [takeDigits_append ds rest hds hr]
    simp only [hh2, hh3, hh4, Bool.false_eq_true, if_false, Bool.or_self, List.isEmpty_nil,
      Bool.and_self, if_true, hval]
    by_cases hcmp : n ≤ 2147483647
    · rw [if_pos (by simp; omega), if_pos hcmp]
      simp only [List.length_cons, List.length_append, Except.ok.injEq, Prod.mk.injEq]
      refine ⟨trivial, trivial, by omega, trivial⟩
    · rw [if_neg (by simp; omega), if_neg hcmp]
      rw [doubleOverflows_small _ (by simpa using hbig)]
      simp only [Bool.false_eq_true, if_false, mkRat_one_int, Int.cast_natCast,
        List.length_cons, List.length_append, Except.ok.injEq, Prod.mk.injEq]
      refine ⟨trivial, trivial, by omega, trivial⟩

/-- Parsing the decimal rendering of any natural number below the double
overflow threshold yields an Integer when it fits int32 and a Double
otherwise. -/
theorem jsonToValue_natDigs (n : Nat) (tc : Bool) (hbig : n < 2 ^ 1024) :
    JsonToValue (JSONReader.natDigs n) false tc =
      (if n ≤ 2147483647 then .ok (.integer n) else .ok (.double (n : Rat))) := by
  obtain ⟨d, ds, heq, hd1, hd2⟩ : ∃ d ds, JSONReader.natDigs n = d :: ds ∧ 48 ≤ d ∧ d ≤ 57 := by
    rcases Nat.eq_zero_or_pos n with rfl | hn
    · exact ⟨48, [], rfl, by omega, by omega⟩
    · obtain ⟨d, ds, heq, h1, h2⟩ := natDigsAux_head (n + 1) n (by omega) hn
      exact ⟨d, ds, by rw [JSONReader.natDigs]; exact heq, by omega, h2⟩
  rw [JsonToValue, heq, skipIns_sig _ _ _ _ (by simp [isWsChar]; omega) (by omega)]
  simp only
  rw [parseValue_digit d hd1 hd2, ← heq, ← List.append_nil (JSONReader.natDigs n),
    parseNumber_natDigs n 1 1 [] rfl hbig]
  by_cases hcmp : n ≤ 2147483647 <;> simp [hcmp, skipIns, isContainer]

/-- C3: a numeric literal with no fractional part and no exponent whose
value fits in a signed 32-bit integer is stored as an Integer, otherwise as
a Double (`43` parses to integer 43, `0` to integer 0, `2147483648` to
double 2147483648.0); a literal whose double value is infinite (`1e1000`)
is rejected as an error rather than clamped; and literals violating the
strict grammar (`043`, `0x43`, `00`) all fail. -/
theorem claim_C3 :
    (∀ (n : Nat) (tc : Bool), n < 2 ^ 1024 →
       JsonToValue (JSONReader.natDigs n) false tc =
         (if n ≤ 2147483647 then .ok (.integer n) else .ok (.double (n : Rat)))) ∧
    JsonToValue (("43").toBytes) false false = .ok (.integer 43) ∧
    JsonToValue (("0").toBytes) false false = .ok (.integer 0) ∧
    JsonToValue (("2147483648").toBytes) false false = .ok (.double (2147483648 : Rat)) ∧
    JsonToValue (("-2147483649").toBytes) false false = .ok (.double (-2147483649 : Rat)) ∧
    JsonToValue (("43.1").toBytes) false false = .ok (.double (mkRat 431 10)) ∧
    JsonToValue (("1e1000").toBytes) false false = .error ⟨.syntaxError, 1, 1⟩ ∧
    JsonToValue (("-1e1000").toBytes) false false = .error ⟨.syntaxError, 1, 1⟩ ∧
    (∃ e, JsonToValue (("043").toBytes) false false = .error e) ∧
    (∃ e, JsonToValue (("0x43").toBytes) false false = .error e) ∧
    (∃ e, JsonToValue (("00").toBytes) false false = .error e) :=
  ⟨fun n tc h => jsonToValue_natDigs n tc h, rfl, rfl, rfl, rfl, rfl, rfl, rfl,
    ⟨⟨.syntaxError, 1, 1⟩, rfl⟩, ⟨⟨.unexpectedDataAfterRoot, 1, 2⟩, rfl⟩,
    ⟨⟨.syntaxError, 1, 1⟩, rfl⟩⟩

/-- Witness for C3: the general integer-literal rule evaluated on both
sides of the 32-bit boundary. -/
theorem claim_C3_witness :
    JsonToValue (JSONReader.natDigs 2147483648) false false = .ok (.double ((2147483648 : Nat) : Rat)) ∧
    JsonToValue (JSONReader.natDigs 43) false false = .ok (.integer 43) := by
  constructor
  · have := claim_C3.1 2147483648 false (by norm_num)
    simpa using this
  · have := claim_C3.1 43 false (by norm_num)
    simpa using this

/-- The `\xHH` escape decodes to the byte value of its two hex digits. -/
theorem parseStr_hexEsc (h1 h2 : Nat) (hx1 : isHexDig h1 = true) (hx2 : isHexDig h2 = true)
    (l c : Nat) (X : List Nat) (acc : List Nat) :
    parseStr l c (92 :: 120 :: h1 :: h2 :: X) acc =
      parseStr l (c + 4) X (acc ++ [16 * hexVal h1 + hexVal h2]) := by
  rw [parseStr]
  simp only [Nat.reduceBEq, Bool.false_eq_true, if_false, if_true]
  rw [parseEsc]
  simp only [Nat.reduceBEq, Bool.false_eq_true, if_false, if_true]
  have hstep : parseXEsc l c (h1 :: h2 :: X) acc =
      (if (isHexDig h1 && isHexDig h2) = true then
        parseStr l (c + 4) X (acc ++ [16 * hexVal h1 + hexVal h2])
      else .error ⟨.invalidEscape, l, c + 1⟩) := rfl
  rw [hstep]
  simp [hx1, hx2]

/-- The `\uHHHH` escape with a non-surrogate value decodes to the code
unit denoted by its four hex digits. -/
theorem parseStr_uEsc (h1 h2 h3 h4 : Nat) (hx1 : isHexDig h1 = true) (hx2 : isHexDig h2 = true)
    (hx3 : isHexDig h3 = true) (hx4 : isHexDig h4 = true)
    (hno : ¬(0xD800 ≤ 4096 * hexVal h1 + 256 * hexVal h2 + 16 * hexVal h3 + hexVal h4 ∧
             4096 * hexVal h1 + 256 * hexVal h2 + 16 * hexVal h3 + hexVal h4 ≤ 0xDFFF))
    (l c : Nat) (X : List Nat) (acc : List Nat) :
    parseStr l c (92 :: 117 :: h1 :: h2 :: h3 :: h4 :: X) acc =
      parseStr l (c + 6) X
        (acc ++ [4096 * hexVal h1 + 256 * hexVal h2 + 16 * hexVal h3 + hexVal h4]) := by
  rw [parseStr]
  simp only [Nat.reduceBEq, Bool.false_eq_true, if_false, if_true]
  rw [parseEsc]
  simp only [Nat.reduceBEq, Bool.false_eq_true, if_false, if_true]
  have hstep : parseUEsc l c (h1 :: h2 :: h3 :: h4 :: X) acc =
      (if (isHexDig h1 && isHexDig h2 && isHexDig h3 && isHexDig h4) = true then
        let u := 4096 * hexVal h1 + 256 * hexVal h2 + 16 * hexVal h3 + hexVal h4
        if (0xD800 ≤ u && u ≤ 0xDBFF) = true then parseLowSurr u l c X acc
        else if (0xDC00 ≤ u && u ≤ 0xDFFF) = true then .error ⟨.invalidEscape, l, c + 1⟩
        else parseStr l (c + 6) X (acc ++ [u])
      else .error ⟨.invalidEscape, l, c + 1⟩) := rfl
  rw [hstep]
  simp only [hx1, hx2, hx3, hx4, Bool.and_self, if_true]
  rw [if_neg (by simp; omega), if_neg (by simp; omega)]

/-- Full-parse form of the `\xHH` rule: a string literal consisting of the
escape alone parses to the one-character string of that byte value. -/
theorem jsonToValue_hexEsc (h1 h2 : Nat) (hx1 : isHexDig h1 = true) (hx2 : isHexDig h2 = true)
    (tc : Bool) :
    JsonToValue [34, 92, 120, h1, h2, 34] false tc = .ok (.str [16 * hexVal h1 + hexVal h2]) := by
  have h0 : JsonToValue [34, 92, 120, h1, h2, 34] false tc =
      (match (match parseStr 1 2 (92 :: 120 :: h1 :: h2 :: [34]) [] with
              | Except.error e => Except.error e
              | Except.ok (s, l2, c2, r2) =>
                Except.ok (Value.str s, l2, c2, r2) :
               Except Err (Value × Nat × Nat × List Nat)) with
       | Except.error e => Except.error e
       | Except.ok (v, l2, c2, r2) =>
         if (false && !isContainer v) = true then
           Except.error ⟨.badRootElementType, 1, 1⟩
         else
           match skipIns .normal l2 c2 r2 with
           | Except.error e => Except.error e
           | Except.ok (l3, c3, r3) =>
             match r3 with
             | [] => Except.ok v
             | _ => Except.error ⟨.unexpectedDataAfterRoot, l3, c3⟩) := rfl
  rw [h0, parseStr_hexEsc h1 h2 hx1 hx2]
  exact rfl

/-- Full-parse form of the `\uHHHH` rule: a string literal consisting of
the escape alone parses to the one-character string of that code unit. -/
theorem jsonToValue_uEsc (h1 h2 h3 h4 : Nat) (hx1 : isHexDig h1 = true)
    (hx2 : isHexDig h2 = true) (hx3 : isHexDig h3 = true) (hx4 : isHexDig h4 = true)
    (hno : ¬(0xD800 ≤ 4096 * hexVal h1 + 256 * hexVal h2 + 16 * hexVal h3 + hexVal h4 ∧
             4096 * hexVal h1 + 256 * hexVal h2 + 16 * hexVal h3 + hexVal h4 ≤ 0xDFFF))
    (tc : Bool) :
    JsonToValue [34, 92, 117, h1, h2, h3, h4, 34] false tc =
      .ok (.str [4096 * hexVal h1 + 256 * hexVal h2 + 16 * hexVal h3 + hexVal h4]) := by
  have h0 : JsonToValue [34, 92, 117, h1, h2, h3, h4, 34] false tc =
      (match (match parseStr 1 2 (92 :: 117 :: h1 :: h2 :: h3 :: h4 :: [34]) [] with
              | Except.error e => Except.error e
              | Except.ok (s, l2, c2, r2) =>
                Except.ok (Value.str s, l2, c2, r2) :
               Except Err (Value × Nat × Nat × List Nat)) with
       | Except.error e => Except.error e
       | Except.ok (v, l2, c2, r2) =>
         if (false && !isContainer v) = true then
           Except.error ⟨.badRootElementType, 1, 1⟩
         else
           match skipIns .normal l2 c2 r2 with
           | Except.error e => Except.error e
           | Except.ok (l3, c3, r3) =>
             match r3 with
             | [] => Except.ok v
             | _ => Except.error ⟨.unexpectedDataAfterRoot, l3, c3⟩) := rfl
  rw [h0, parseStr_uEsc h1 h2 h3 h4 hx1 hx2 hx3 hx4 hno]
  exact rfl

/-- C4: the string-literal decoder maps each escape sequence to its
single-character equivalent — the literal with escapes
`\" \\ \/ \b \f \n \r \t \v` decodes to space, quote, backslash,
slash, backspace, form-feed, newline, carriage-return, tab, vertical-tab;
`\xHH` decodes to the corresponding byte and `\uHHHH` to the corresponding
code unit; and decoded output may contain embedded NUL characters with
explicit length (`\x41\x00\u1234` decodes to the 3-character string
A, NUL, U+1234). -/
theorem claim_C4 :
    JsonToValue ("\" \\\"\\\\\\/\\b\\f\\n\\r\\t\\v\"").toBytes false false =
      .ok (.str [32, 34, 92, 47, 8, 12, 10, 13, 9, 11]) ∧
    JsonToValue ("\"\\x41\\x00\\u1234\"").toBytes false false = .ok (.str [65, 0, 4660]) ∧
    ([65, 0, 4660] : List Nat).length = 3 ∧
    (∀ (h1 h2 : Nat) (tc : Bool), isHexDig h1 = true → isHexDig h2 = true →
      JsonToValue [34, 92, 120, h1, h2, 34] false tc =
        .ok (.str [16 * hexVal h1 + hexVal h2])) ∧
    (∀ (h1 h2 h3 h4 : Nat) (tc : Bool), isHexDig h1 = true → isHexDig h2 = true →
      isHexDig h3 = true → isHexDig h4 = true →
      ¬(0xD800 ≤ 4096 * hexVal h1 + 256 * hexVal h2 + 16 * hexVal h3 + hexVal h4 ∧
        4096 * hexVal h1 + 256 * hexVal h2 + 16 * hexVal h3 + hexVal h4 ≤ 0xDFFF) →
      JsonToValue [34, 92, 117, h1, h2, h3, h4, 34] false tc =
        .ok (.str [4096 * hexVal h1 + 256 * hexVal h2 + 16 * hexVal h3 + hexVal h4])) :=
  ⟨rfl, rfl, rfl,
    fun h1 h2 tc hx1 hx2 => jsonToValue_hexEsc h1 h2 hx1 hx2 tc,
    fun h1 h2 h3 h4 tc hx1 hx2 hx3 hx4 hno =>
      jsonToValue_uEsc h1 h2 h3 h4 hx1 hx2 hx3 hx4 hno tc⟩

/-- Witness for C4: the universal escape rules evaluated at `\x41`
(digits `4`,`1`) and `\u1234` (digits `1`,`2`,`3`,`4`). -/
theorem claim_C4_witness :
    JsonToValue [34, 92, 120, 52, 49, 34] false false = .ok (.str [65]) ∧
    JsonToValue [34, 92, 117, 49, 50, 51, 52, 34] false false = .ok (.str [4660]) := by
  constructor
  · have := claim_C4.2.2.2.1 52 49 false (by decide) (by decide)
    simpa using this
  · have := claim_C4.2.2.2.2 49 50 51 52 false (by decide) (by decide) (by decide) (by decide)
      (by simp [hexVal])
    simpa [hexVal] using this

/-- C5: a comma must be followed by another element unless
allow_trailing_comma is set and the next token is the closing
bracket/brace — `[1,]` with default options fails with kTrailingComma at
line 1, column 4, while with allow_trailing_comma it parses as a
single-element list; and inputs with an empty element (a leading comma or
two consecutive commas) fail regardless of the flag. -/
theorem claim_C5 :
    Read (("[1,]").toBytes) false = .error ⟨.trailingComma, 1, 4⟩ ∧
    Read (("[1,]").toBytes) true = .ok (.list [.integer 1]) ∧
    (∀ tc, ∃ e, Read (("[,]").toBytes) tc = .error e) ∧
    (∀ tc, ∃ e, Read (("\x7b,\x7d").toBytes) tc = .error e) ∧
    (∀ tc, ∃ e, Read (("[true,,]").toBytes) tc = .error e) ∧
    (∀ tc, ∃ e, Read (("[,true,]").toBytes) tc = .error e) ∧
    (∀ tc, ∃ e, Read (("[true,,false]").toBytes) tc = .error e) :=
  ⟨rfl, rfl,
    fun tc => by cases tc <;> exact ⟨_, rfl⟩,
    fun tc => by cases tc <;> exact ⟨_, rfl⟩,
    fun tc => by cases tc <;> exact ⟨_, rfl⟩,
    fun tc => by cases tc <;> exact ⟨_, rfl⟩,
    fun tc => by cases tc <;> exact ⟨_, rfl⟩⟩

/-- C9: when a parse via ReadAndReturnError succeeds, the caller-supplied
error-code and error-message slots are returned exactly as the caller set
them — never written or cleared. -/
theorem claim_C9 (input : List Nat) (tc : Bool) (ec0 : Int) (msg0 : List Nat) (v : Value)
    (h : (ReadAndReturnError input tc ec0 msg0).1 = some v) :
    (ReadAndReturnError input tc ec0 msg0).2.1 = ec0 ∧
      (ReadAndReturnError input tc ec0 msg0).2.2 = msg0 := by
  rw [ReadAndReturnError] at h ⊢
  cases h' : JsonToValue input true tc with
  | ok w => exact ⟨rfl, rfl⟩
  | error e => rw [h'] at h; simp at h

/-- Witness for C9: a successful parse of `[42]` leaves arbitrary caller
slot contents (here 7 and a one-byte message) untouched. -/
theorem claim_C9_witness :
    (ReadAndReturnError (("[42]").toBytes) false 7 [1]).2.1 = 7 ∧
      (ReadAndReturnError (("[42]").toBytes) false 7 [1]).2.2 = [1] :=
  claim_C9 (("[42]").toBytes) false 7 [1] (.list [.integer 42]) (by rfl)

/-- C10: JsonToValue with root checking disabled accepts a bare scalar at
the root (`   null   `, `true  `, `43`, and a quoted string all parse to
the corresponding scalar values), whereas Read rejects the same scalar
roots with kBadRootElementType: the root-must-be-container restriction
belongs to the root-checking entry points, not to the underlying parser. -/
theorem claim_C10 :
    JsonToValue (("   null   ").toBytes) false false = .ok .nullV ∧
    JsonToValue (("true  ").toBytes) false false = .ok (.boolean true) ∧
    JsonToValue (("43").toBytes) false false = .ok (.integer 43) ∧
    JsonToValue (("\"hello world\"").toBytes) false false =
      .ok (.str [104, 101, 108, 108, 111, 32, 119, 111, 114, 108, 100]) ∧
    Read (("   null   ").toBytes) false = .error ⟨.badRootElementType, 1, 4⟩ ∧
    Read (("true  ").toBytes) false = .error ⟨.badRootElementType, 1, 1⟩ ∧
    Read (("43").toBytes) false = .error ⟨.badRootElementType, 1, 1⟩ ∧
    Read (("\"hello world\"").toBytes) false = .error ⟨.badRootElementType, 1, 1⟩ :=
  ⟨rfl, rfl, rfl, rfl, rfl, rfl, rfl, rfl⟩

theorem parseStr_cons_ascii (b : Nat) (h34 : b ≠ 34) (h92 : b ≠ 92) (h10 : b ≠ 10)
    (h80 : b < 0x80) (l c : Nat) (T acc : List Nat) :
    parseStr l c (b :: T) acc = parseStr l (c + 1) T (acc ++ [b]) := by
  rw [parseStr]
  rw [if_neg (by simp [h34]), if_neg (by simp [h92]), if_neg (by simp [h10]), if_pos h80]

theorem parseStr_cons_nl (l c : Nat) (T acc : List Nat) :
    parseStr l c (10 :: T) acc = parseStr (l + 1) 1 T (acc ++ [10]) := by
  rw [parseStr]
  simp

theorem parseStr_cons_u2 (b : Nat) (hb : 0xC2 ≤ b ∧ b ≤ 0xDF) (l c : Nat) (T acc : List Nat) :
    parseStr l c (b :: T) acc = parseU2 b l c T acc := by
  rw [parseStr]
  rw [if_neg (by simp; omega), if_neg (by simp; omega), if_neg (by simp; omega),
    if_neg (by omega), if_pos (by simp; omega)]

theorem parseStr_cons_u3 (b : Nat) (hb : 0xE0 ≤ b ∧ b ≤ 0xEF) (l c : Nat) (T acc : List Nat) :
    parseStr l c (b :: T) acc = parseU3 b l c T acc := by
  rw [parseStr]
  rw [if_neg (by simp; omega), if_neg (by simp; omega), if_neg (by simp; omega),
    if_neg (by omega), if_neg (by simp; omega), if_pos (by simp; omega)]

theorem parseStr_cons_u4 (b : Nat) (hb : 0xF0 ≤ b ∧ b ≤ 0xF4) (l c : Nat) (T acc : List Nat) :
    parseStr l c (b :: T) acc = parseU4 b l c T acc := by
  rw [parseStr]
  rw [if_neg (by simp; omega), if_neg (by simp; omega), if_neg (by simp; omega),
    if_neg (by omega), if_neg (by simp; omega), if_neg (by simp; omega), if_pos (by simp; omega)]

theorem parseStr_cons_bad (b : Nat) (h34 : b ≠ 34) (h92 : b ≠ 92)
    (hr : ¬(b < 0x80) ∧ ¬(0xC2 ≤ b ∧ b ≤ 0xDF) ∧ ¬(0xE0 ≤ b ∧ b ≤ 0xEF) ∧ ¬(0xF0 ≤ b ∧ b ≤ 0xF4))
    (l c : Nat) (T acc : List Nat) :
    parseStr l c (b :: T) acc = .error ⟨.syntaxError, l, c⟩ := by
  rw [parseStr]
  rw [if_neg (by simp [h34]), if_neg (by simp [h92]), if_neg (by simp; omega),
    if_neg (by omega), if_neg (by simp; omega), if_neg (by simp; omega), if_neg (by simp; omega)]

theorem utf8Enc_ascii (b : Nat) (h : b < 0x80) : utf8Enc b = [b] := by
  rw [utf8Enc, if_pos h]

theorem utf8Enc_two (b b2 : Nat) (hb : 0xC2 ≤ b ∧ b ≤ 0xDF) (h2 : 0x80 ≤ b2 ∧ b2 ≤ 0xBF) :
    utf8Enc (64 * (b - 0xC0) + (b2 - 0x80)) = [b, b2] ∧
      scalarOk (64 * (b - 0xC0) + (b2 - 0x80)) = true := by
  constructor
  · rw [utf8Enc, if_neg (by omega), if_pos (by omega)]
    have e1 : (64 * (b - 0xC0) + (b2 - 0x80)) / 64 = b - 0xC0 := by omega
    have e2 : (64 * (b - 0xC0) + (b2 - 0x80)) % 64 = b2 - 0x80 := by omega
    rw [e1, e2]
    simp only [List.cons.injEq, and_true]
    omega
  · simp only [scalarOk, Bool.and_eq_true, decide_eq_true_eq, Bool.not_eq_true',
      Bool.and_eq_false_iff, decide_eq_false_iff_not]
    omega

theorem utf8Enc_three (b b2 b3 : Nat) (hb : 0xE0 ≤ b ∧ b ≤ 0xEF)
    (hc : ((if (b == 0xE0) = true then 0xA0 ≤ b2 && b2 ≤ 0xBF
           else if (b == 0xED) = true then 0x80 ≤ b2 && b2 ≤ 0x9F
           else 0x80 ≤ b2 && b2 ≤ 0xBF) && (0x80 ≤ b3 && b3 ≤ 0xBF)) = true) :
    utf8Enc (4096 * (b - 0xE0) + 64 * (b2 - 0x80) + (b3 - 0x80)) = [b, b2, b3] ∧
      scalarOk (4096 * (b - 0xE0) + 64 * (b2 - 0x80) + (b3 - 0x80)) = true := by
  have hranges : (0x80 ≤ b2 ∧ b2 ≤ 0xBF) ∧ (0x80 ≤ b3 ∧ b3 ≤ 0xBF) ∧
      (b = 0xE0 → 0xA0 ≤ b2) ∧ (b = 0xED → b2 ≤ 0x9F) := by
    by_cases hE0 : b = 0xE0
    · simp [hE0] at hc; omega
    · by_cases hED : b = 0xED
      · simp [hE0, hED] at hc; omega
      · simp [hE0, hED] at hc; omega
  constructor
  · rw [utf8Enc, if_neg (by omega), if_neg (by omega), if_pos (by omega)]
    have e1 : (4096 * (b - 0xE0) + 64 * (b2 - 0x80) + (b3 - 0x80)) / 4096 = b - 0xE0 := by omega
    have e2 : (4096 * (b - 0xE0) + 64 * (b2 - 0x80) + (b3 - 0x80)) / 64 % 64 = b2 - 0x80 := by
      omega
    have e3 : (4096 * (b - 0xE0) + 64 * (b2 - 0x80) + (b3 - 0x80)) % 64 = b3 - 0x80 := by omega
    rw [e1, e2, e3]
    simp only [List.cons.injEq, and_true]
    omega
  · simp only [scalarOk, Bool.and_eq_true, decide_eq_true_eq, Bool.not_eq_true',
      Bool.and_eq_false_iff, decide_eq_false_iff_not]
    omega

theorem utf8Enc_four (b b2 b3 b4 : Nat) (hb : 0xF0 ≤ b ∧ b ≤ 0xF4)
    (hc : ((if (b == 0xF0) = true then 0x90 ≤ b2 && b2 ≤ 0xBF
           else if (b == 0xF4) = true then 0x80 ≤ b2 && b2 ≤ 0x8F
           else 0x80 ≤ b2 && b2 ≤ 0xBF) &&
          (0x80 ≤ b3 && b3 ≤ 0xBF) && (0x80 ≤ b4 && b4 ≤ 0xBF)) = true) :
    utf8Enc (262144 * (b - 0xF0) + 4096 * (b2 - 0x80) + 64 * (b3 - 0x80) + (b4 - 0x80)) =
        [b, b2, b3, b4] ∧
      scalarOk (262144 * (b - 0xF0) + 4096 * (b2 - 0x80) + 64 * (b3 - 0x80) + (b4 - 0x80)) =
        true := by
  have hranges : (0x80 ≤ b2 ∧ b2 ≤ 0xBF) ∧ (0x80 ≤ b3 ∧ b3 ≤ 0xBF) ∧ (0x80 ≤ b4 ∧ b4 ≤ 0xBF) ∧
      (b = 0xF0 → 0x90 ≤ b2) ∧ (b = 0xF4 → b2 ≤ 0x8F) := by
    by_cases hF0 : b = 0xF0
    · simp [hF0] at hc; omega
    · by_cases hF4 : b = 0xF4
      · simp [hF0, hF4] at hc; omega
      · simp [hF0, hF4] at hc; omega
  constructor
  · rw [utf8Enc, if_neg (by omega), if_neg (by omega), if_neg (by omega)]
    have e1 : (262144 * (b - 0xF0) + 4096 * (b2 - 0x80) + 64 * (b3 - 0x80) + (b4 - 0x80)) /
        262144 = b - 0xF0 := by omega
    have e2 : (262144 * (b - 0xF0) + 4096 * (b2 - 0x80) + 64 * (b3 - 0x80) + (b4 - 0x80)) /
        4096 % 64 = b2 - 0x80 := by omega
    have e3 : (262144 * (b - 0xF0) + 4096 * (b2 - 0x80) + 64 * (b3 - 0x80) + (b4 - 0x80)) /
        64 % 64 = b3 - 0x80 := by omega
    have e4 : (262144 * (b - 0xF0) + 4096 * (b2 - 0x80) + 64 * (b3 - 0x80) + (b4 - 0x80)) %
        64 = b4 - 0x80 := by omega
    rw [e1, e2, e3, e4]
    simp only [List.cons.injEq, and_true]
    omega
  · simp only [scalarOk, Bool.and_eq_true, decide_eq_true_eq, Bool.not_eq_true',
      Bool.and_eq_false_iff, decide_eq_false_iff_not]
    omega

theorem parseStr_utf8_sound (n : Nat) :
    ∀ (bs : List Nat), bs.length ≤ n →
    ∀ (l c : Nat) (rest acc s : List Nat) (l2 c2 : Nat) (r2 : List Nat),
    (∀ b ∈ bs, b ≠ 34 ∧ b ≠ 92) →
    parseStr l c (bs ++ 34 :: rest) acc = .ok (s, l2, c2, r2) →
    ∃ us, s = acc ++ us ∧ bs = (us.map utf8Enc).flatten ∧ ∀ u ∈ us, scalarOk u = true := by
  induction n with
  | zero =>
    intro bs hl l c rest acc s l2 c2 r2 hbs h
    have hnil : bs = [] := by
      cases bs with
      | nil => rfl
      | cons a t => simp at hl
    subst hnil
    rw [List.nil_append, parseStr] at h
    simp at h
    exact ⟨[], by simp [h.1], by simp, by simp⟩
  | succ n ih =>
    intro bs hl l c rest acc s l2 c2 r2 hbs h
    cases bs with
    | nil =>
      rw [List.nil_append, parseStr] at h
      simp at h
      exact ⟨[], by simp [h.1], by simp, by simp⟩
    | cons b bs' =>
      have hb := hbs b (by simp)
      have hbs' : ∀ x ∈ bs', x ≠ 34 ∧ x ≠ 92 := fun x hx => hbs x (by simp [hx])
      have hl' : bs'.length ≤ n := by simp at hl; omega
      rw [List.cons_append] at h
      by_cases h10 : b = 10
      · subst h10
        rw [parseStr_cons_nl] at h
        obtain ⟨us, hs, henc, hsc⟩ := ih bs' hl' _ _ _ _ _ _ _ _ hbs' h
        refine ⟨10 :: us, by rw [hs]; simp, ?_, ?_⟩
        · rw [henc]
          simp [utf8Enc_ascii 10 (by omega)]
        · intro u hu
          rcases List.mem_cons.mp hu with rfl | hu
          · rfl
          · exact hsc u hu
      · by_cases h80 : b < 0x80
        · rw [parseStr_cons_ascii b hb.1 hb.2 h10 h80] at h
          obtain ⟨us, hs, henc, hsc⟩ := ih bs' hl' _ _ _ _ _ _ _ _ hbs' h
          refine ⟨b :: us, by rw [hs]; simp, ?_, ?_⟩
          · rw [henc]
            simp [utf8Enc_ascii b h80]
          · intro u hu
            rcases List.mem_cons.mp hu with rfl | hu
            · simp [scalarOk]; omega
            · exact hsc u hu
        · by_cases h2 : 0xC2 ≤ b ∧ b ≤ 0xDF
          · rw [parseStr_cons_u2 b h2] at h
            cases bs' with
            | nil =>
              rw [List.nil_append] at h
              rw [show parseU2 b l c (34 :: rest) acc = .error ⟨.syntaxError, l, c⟩ from rfl] at h
              simp at h
            | cons b2 bs'' =>
              rw [List.cons_append] at h
              have hstep : parseU2 b l c (b2 :: (bs'' ++ 34 :: rest)) acc =
                  (if (0x80 ≤ b2 && b2 ≤ 0xBF) = true then
                    parseStr l (c + 1) (bs'' ++ 34 :: rest)
                      (acc ++ [64 * (b - 0xC0) + (b2 - 0x80)])
                  else .error ⟨.syntaxError, l, c⟩) := rfl
              rw [hstep] at h
              by_cases hb2 : 0x80 ≤ b2 ∧ b2 ≤ 0xBF
              · rw [if_pos (by simp; omega)] at h
                have hl'' : bs''.length ≤ n := by simp at hl; omega
                have hbs'' : ∀ x ∈ bs'', x ≠ 34 ∧ x ≠ 92 :=
                  fun x hx => hbs x (by simp [hx])
                obtain ⟨us, hs, henc, hsc⟩ := ih bs'' hl'' _ _ _ _ _ _ _ _ hbs'' h
                obtain ⟨he, hsok⟩ := utf8Enc_two b b2 h2 hb2
                refine ⟨(64 * (b - 0xC0) + (b2 - 0x80)) :: us, by rw [hs]; simp, ?_, ?_⟩
                · rw [henc]
                  simp [he]
                · intro u hu
                  rcases List.mem_cons.mp hu with rfl | hu
                  · exact hsok
                  · exact hsc u hu
              · rw [if_neg (by simp; omega)] at h
                simp at h
          · by_cases h3 : 0xE0 ≤ b ∧ b ≤ 0xEF
            · rw [parseStr_cons_u3 b h3] at h
              cases bs' with
              | nil =>
                rw [List.nil_append] at h
                cases rest with
                | nil =>
                  rw [show parseU3 b l c [34] acc = .error ⟨.syntaxError, l, c⟩ from rfl] at h
                  simp at h
                | cons r1 rt =>
                  have hstep : parseU3 b l c (34 :: r1 :: rt) acc =
                      (if ((if (b == 0xE0) = true then 0xA0 ≤ 34 && (34 : Nat) ≤ 0xBF
                           else if (b == 0xED) = true then 0x80 ≤ 34 && (34 : Nat) ≤ 0x9F
                           else 0x80 ≤ 34 && (34 : Nat) ≤ 0xBF) &&
                          (0x80 ≤ r1 && r1 ≤ 0xBF)) = true then
                        parseStr l (c + 1) rt (acc ++ [4096 * (b - 0xE0) + 64 * (34 - 0x80) + (r1 - 0x80)])
                      else .error ⟨.syntaxError, l, c⟩) := rfl
                  rw [hstep, if_neg (by split <;> simp)] at h
                  simp at h
              | cons b2 bs'' =>
                cases bs'' with
                | nil =>
                  rw [show ([b2] : List Nat) ++ 34 :: rest = b2 :: 34 :: rest from rfl] at h
                  have hstep : parseU3 b l c (b2 :: 34 :: rest) acc =
                      (if ((if (b == 0xE0) = true then 0xA0 ≤ b2 && b2 ≤ 0xBF
                           else if (b == 0xED) = true then 0x80 ≤ b2 && b2 ≤ 0x9F
                           else 0x80 ≤ b2 && b2 ≤ 0xBF) &&
                          (0x80 ≤ 34 && (34 : Nat) ≤ 0xBF)) = true then
                        parseStr l (c + 1) rest (acc ++ [4096 * (b - 0xE0) + 64 * (b2 - 0x80) + (34 - 0x80)])
                      else .error ⟨.syntaxError, l, c⟩) := rfl
                  rw [hstep, if_neg (by simp)] at h
                  simp at h
                | cons b3 bs3 =>
                  rw [show (b2 :: b3 :: bs3 : List Nat) ++ 34 :: rest =
                      b2 :: b3 :: (bs3 ++ 34 :: rest) from rfl] at h
                  have hstep : parseU3 b l c (b2 :: b3 :: (bs3 ++ 34 :: rest)) acc =
                      (if ((if (b == 0xE0) = true then 0xA0 ≤ b2 && b2 ≤ 0xBF
                           else if (b == 0xED) = true then 0x80 ≤ b2 && b2 ≤ 0x9F
                           else 0x80 ≤ b2 && b2 ≤ 0xBF) &&
                          (0x80 ≤ b3 && b3 ≤ 0xBF)) = true then
                        parseStr l (c + 1) (bs3 ++ 34 :: rest)
                          (acc ++ [4096 * (b - 0xE0) + 64 * (b2 - 0x80) + (b3 - 0x80)])
                      else .error ⟨.syntaxError, l, c⟩) := rfl
                  rw [hstep] at h
                  by_cases hcond : ((if (b == 0xE0) = true then 0xA0 ≤ b2 && b2 ≤ 0xBF
                      else if (b == 0xED) = true then 0x80 ≤ b2 && b2 ≤ 0x9F
                      else 0x80 ≤ b2 && b2 ≤ 0xBF) && (0x80 ≤ b3 && b3 ≤ 0xBF)) = true
                  · rw [if_pos hcond] at h
                    have hl'' : bs3.length ≤ n := by simp at hl; omega
                    have hbs'' : ∀ x ∈ bs3, x ≠ 34 ∧ x ≠ 92 :=
                      fun x hx => hbs x (by simp [hx])
                    obtain ⟨us, hs, henc, hsc⟩ := ih bs3 hl'' _ _ _ _ _ _ _ _ hbs'' h
                    obtain ⟨he, hsok⟩ := utf8Enc_three b b2 b3 h3 hcond
                    refine ⟨(4096 * (b - 0xE0) + 64 * (b2 - 0x80) + (b3 - 0x80)) :: us,
                      by rw [hs]; simp, ?_, ?_⟩
                    · rw [henc]
                      simp [he]
                    · intro u hu
                      rcases List.mem_cons.mp hu with rfl | hu
                      · exact hsok
                      · exact hsc u hu
                  · rw [if_neg hcond] at h
                    simp at h
            · by_cases h4 : 0xF0 ≤ b ∧ b ≤ 0xF4
              · rw [parseStr_cons_u4 b h4] at h
                cases bs' with
                | nil =>
                  rw [List.nil_append] at h
                  cases rest with
                  | nil =>
                    rw [show parseU4 b l c [34] acc = .error ⟨.syntaxError, l, c⟩ from rfl] at h
                    simp at h
                  | cons r1 rt =>
                    cases rt with
                    | nil =>
                      rw [show parseU4 b l c [34, r1] acc =
                          .error ⟨.syntaxError, l, c⟩ from rfl] at h
                      simp at h
                    | cons r2' rt2 =>
                      have hstep : parseU4 b l c (34 :: r1 :: r2' :: rt2) acc =
                          (if ((if (b == 0xF0) = true then 0x90 ≤ 34 && (34 : Nat) ≤ 0xBF
                               else if (b == 0xF4) = true then 0x80 ≤ 34 && (34 : Nat) ≤ 0x8F
                               else 0x80 ≤ 34 && (34 : Nat) ≤ 0xBF) &&
                              (0x80 ≤ r1 && r1 ≤ 0xBF) && (0x80 ≤ r2' && r2' ≤ 0xBF)) = true then
                            parseStr l (c + 1) rt2
                              (acc ++ [262144 * (b - 0xF0) + 4096 * (34 - 0x80) +
                                64 * (r1 - 0x80) + (r2' - 0x80)])
                          else .error ⟨.syntaxError, l, c⟩) := rfl
                      rw [hstep, if_neg (by split <;> simp)] at h
                      simp at h
                | cons b2 bs'' =>
                  cases bs'' with
                  | nil =>
                    rw [show ([b2] : List Nat) ++ 34 :: rest = b2 :: 34 :: rest from rfl] at h
                    cases rest with
                    | nil =>
                      rw [show parseU4 b l c [b2, 34] acc =
                          .error ⟨.syntaxError, l, c⟩ from rfl] at h
                      simp at h
                    | cons r1 rt =>
                      have hstep : parseU4 b l c (b2 :: 34 :: r1 :: rt) acc =
                          (if ((if (b == 0xF0) = true then 0x90 ≤ b2 && b2 ≤ 0xBF
                               else if (b == 0xF4) = true then 0x80 ≤ b2 && b2 ≤ 0x8F
                               else 0x80 ≤ b2 && b2 ≤ 0xBF) &&
                              (0x80 ≤ 34 && (34 : Nat) ≤ 0xBF) && (0x80 ≤ r1 && r1 ≤ 0xBF)) = true then
                            parseStr l (c + 1) rt
                              (acc ++ [262144 * (b - 0xF0) + 4096 * (b2 - 0x80) +
                                64 * (34 - 0x80) + (r1 - 0x80)])
                          else .error ⟨.syntaxError, l, c⟩) := rfl
                      rw [hstep, if_neg (by simp)] at h
                      simp at h
                  | cons b3 bs3 =>
                    cases bs3 with
                    | nil =>
                      rw [show (b2 :: b3 :: ([] : List Nat)) ++ 34 :: rest =
                          b2 :: b3 :: 34 :: rest from rfl] at h
                      have hstep : parseU4 b l c (b2 :: b3 :: 34 :: rest) acc =
                          (if ((if (b == 0xF0) = true then 0x90 ≤ b2 && b2 ≤ 0xBF
                               else if (b == 0xF4) = true then 0x80 ≤ b2 && b2 ≤ 0x8F
                               else 0x80 ≤ b2 && b2 ≤ 0xBF) &&
                              (0x80 ≤ b3 && b3 ≤ 0xBF) && (0x80 ≤ 34 && (34 : Nat) ≤ 0xBF)) = true then
                            parseStr l (c + 1) rest
                              (acc ++ [262144 * (b - 0xF0) + 4096 * (b2 - 0x80) +
                                64 * (b3 - 0x80) + (34 - 0x80)])
                          else .error ⟨.syntaxError, l, c⟩) := rfl
                      rw [hstep, if_neg (by simp)] at h
                      simp at h
                    | cons b4 bs4 =>
                      rw [show (b2 :: b3 :: b4 :: bs4 : List Nat) ++ 34 :: rest =
                          b2 :: b3 :: b4 :: (bs4 ++ 34 :: rest) from rfl] at h
                      have hstep : parseU4 b l c (b2 :: b3 :: b4 :: (bs4 ++ 34 :: rest)) acc =
                          (if ((if (b == 0xF0) = true then 0x90 ≤ b2 && b2 ≤ 0xBF
                               else if (b == 0xF4) = true then 0x80 ≤ b2 && b2 ≤ 0x8F
                               else 0x80 ≤ b2 && b2 ≤ 0xBF) &&
                              (0x80 ≤ b3 && b3 ≤ 0xBF) && (0x80 ≤ b4 && b4 ≤ 0xBF)) = true then
                            parseStr l (c + 1) (bs4 ++ 34 :: rest)
                              (acc ++ [262144 * (b - 0xF0) + 4096 * (b2 - 0x80) +
                                64 * (b3 - 0x80) + (b4 - 0x80)])
                          else .error ⟨.syntaxError, l, c⟩) := rfl
                      rw [hstep] at h
                      by_cases hcond : ((if (b == 0xF0) = true then 0x90 ≤ b2 && b2 ≤ 0xBF
                          else if (b == 0xF4) = true then 0x80 ≤ b2 && b2 ≤ 0x8F
                          else 0x80 ≤ b2 && b2 ≤ 0xBF) &&
                          (0x80 ≤ b3 && b3 ≤ 0xBF) && (0x80 ≤ b4 && b4 ≤ 0xBF)) = true
                      · rw [if_pos hcond] at h
                        have hl'' : bs4.length ≤ n := by simp at hl; omega
                        have hbs'' : ∀ x ∈ bs4, x ≠ 34 ∧ x ≠ 92 :=
                          fun x hx => hbs x (by simp [hx])
                        obtain ⟨us, hs, henc, hsc⟩ := ih bs4 hl'' _ _ _ _ _ _ _ _ hbs'' h
                        obtain ⟨he, hsok⟩ := utf8Enc_four b b2 b3 b4 h4 hcond
                        refine ⟨(262144 * (b - 0xF0) + 4096 * (b2 - 0x80) + 64 * (b3 - 0x80) +
                            (b4 - 0x80)) :: us, by rw [hs]; simp, ?_, ?_⟩
                        · rw [henc]
                          simp [he]
                        · intro u hu
                          rcases List.mem_cons.mp hu with rfl | hu
                          · exact hsok
                          · exact hsc u hu
                      · rw [if_neg hcond] at h
                        simp at h
              · rw [parseStr_cons_bad b hb.1 hb.2 ⟨h80, h2, h3, h4⟩] at h
                simp at h

theorem parseValue_strHead (fuel : Nat) (tc : Bool) (dep l c : Nat) (X : List Nat) :
    parseValue fuel tc dep l c (34 :: X) =
      (match parseStr l (c + 1) X [] with
       | Except.error e => Except.error e
       | Except.ok (s, l2, c2, r2) => Except.ok (Value.str s, l2, c2, r2)) := by
  rw [parseValue]

theorem jsonToValue_strRoot (tc : Bool) (X : List Nat) (v : Value)
    (h : JsonToValue (34 :: X) false tc = .ok v) :
    ∃ s l2 c2 r2, parseStr 1 2 X [] = .ok (s, l2, c2, r2) ∧ v = .str s := by
  rw [JsonToValue, skipIns_sig 1 1 34 X (by decide) (by decide)] at h
  simp only at h
  rw [parseValue_strHead] at h
  cases hps : parseStr 1 2 X [] with
  | error e => rw [hps] at h; simp at h
  | ok q =>
    obtain ⟨s, l2, c2, r2⟩ := q
    rw [hps] at h
    simp only [isContainer, Bool.false_and, Bool.false_eq_true, if_false] at h
    cases hsk : skipIns .normal l2 c2 r2 with
    | error e => rw [hsk] at h; simp at h
    | ok q2 =>
      obtain ⟨l3, c3, r3⟩ := q2
      rw [hsk] at h
      cases r3 with
      | nil =>
        simp only [Except.ok.injEq] at h
        exact ⟨s, l2, c2, r2, rfl, h.symm⟩
      | cons a t => simp at h

theorem jsonToValue_utf8_sound (tc : Bool) (bs : List Nat)
    (hbs : ∀ b ∈ bs, b ≠ 34 ∧ b ≠ 92) (v : Value)
    (h : JsonToValue (34 :: (bs ++ [34])) false tc = .ok v) :
    ∃ us, v = .str us ∧ bs = (us.map utf8Enc).flatten ∧ ∀ u ∈ us, scalarOk u = true := by
  obtain ⟨s, l2, c2, r2, hps, hv⟩ := jsonToValue_strRoot tc (bs ++ [34]) v h
  obtain ⟨us, hs, henc, hsc⟩ :=
    parseStr_utf8_sound bs.length bs le_rfl 1 2 [] [] s l2 c2 r2 hbs hps
  exact ⟨us, by rw [hv, hs]; simp, henc, hsc⟩

theorem jsonToValue_utf8_fail (tc : Bool) (bs : List Nat)
    (hbs : ∀ b ∈ bs, b ≠ 34 ∧ b ≠ 92) (hnv : ¬ IsUtf8 bs) :
    ∃ e, JsonToValue (34 :: (bs ++ [34])) false tc = .error e := by
  cases h : JsonToValue (34 :: (bs ++ [34])) false tc with
  | error e => exact ⟨e, rfl⟩
  | ok v =>
    obtain ⟨us, _, henc, hsc⟩ := jsonToValue_utf8_sound tc bs hbs v h
    exact absurd ⟨us, henc, hsc⟩ hnv

theorem notUtf8_C0 : ¬ IsUtf8 [0xC0] := by
  rintro ⟨us, heq, hsc⟩
  cases us with
  | nil => simp at heq
  | cons u ut =>
    simp only [List.map_cons, List.flatten_cons] at heq
    by_cases h1 : u < 0x80
    · rw [utf8Enc, if_pos h1] at heq
      simp at heq
      omega
    · by_cases h2 : u < 0x800
      · rw [utf8Enc, if_neg h1, if_pos h2] at heq
        simp at heq
      · by_cases h3 : u < 0x10000
        · rw [utf8Enc, if_neg h1, if_neg h2, if_pos h3] at heq
          simp at heq
        · rw [utf8Enc, if_neg h1, if_neg h2, if_neg h3] at heq
          simp at heq

/-- C7: an invalid UTF-8 byte sequence inside a string literal (overlong
encodings such as 0xC0 0x81, or unpaired continuation bytes) always makes the
parse fail with an error, and a string literal that does parse yields exactly
the sequence of Unicode scalar values whose UTF-8 encoding is the literal's
bytes — invalid bytes are never replaced or passed through. -/
theorem claim_C7 :
    (∀ (tc : Bool) (bs : List Nat), (∀ b ∈ bs, b ≠ 34 ∧ b ≠ 92) → ¬ IsUtf8 bs →
       ∃ e, JsonToValue (34 :: (bs ++ [34])) false tc = .error e) ∧
    (∀ (tc : Bool) (bs : List Nat) (v : Value), (∀ b ∈ bs, b ≠ 34 ∧ b ≠ 92) →
       JsonToValue (34 :: (bs ++ [34])) false tc = .ok v →
       ∃ us, v = .str us ∧ bs = (us.map utf8Enc).flatten ∧
         ∀ u ∈ us, scalarOk u = true) ∧
    (∀ tc, JsonToValue (34 :: ([0xC0, 0x81] ++ [34])) false tc =
       .error ⟨.syntaxError, 1, 2⟩) ∧
    (∀ tc, JsonToValue (34 :: ([51, 52, 53, 0xB0, 0xA1, 0xB0, 0xA2] ++ [34])) false tc =
       .error ⟨.syntaxError, 1, 5⟩) :=
  ⟨fun tc bs hbs hnv => jsonToValue_utf8_fail tc bs hbs hnv,
   fun tc bs v hbs h => jsonToValue_utf8_sound tc bs hbs v h,
   fun tc => rfl, fun tc => rfl⟩

/-- Witness for C7: the failure rule applied to the lone byte 0xC0, and the
soundness rule applied to the two-byte encoding of U+00E9. -/
theorem claim_C7_witness :
    (∃ e, JsonToValue (34 :: (([0xC0] : List Nat) ++ [34])) false false = .error e) ∧
    (∃ us, Value.str [0xE9] = Value.str us ∧
       ([0xC3, 0xA9] : List Nat) = (us.map utf8Enc).flatten ∧
       ∀ u ∈ us, scalarOk u = true) :=
  ⟨claim_C7.1 false [0xC0] (by decide) notUtf8_C0,
   claim_C7.2.1 false [0xC3, 0xA9] (.str [0xE9]) (by decide) rfl⟩

theorem skipIns_inBlock_close : ∀ (txt : List Nat), hasCloseComment txt = false →
    ∀ (l c : Nat) (rest : List Nat), ∃ l2 c2,
      skipIns .inBlock l c (txt ++ 42 :: 47 :: rest) = skipIns .normal l2 c2 rest := by
  intro txt
  induction txt with
  | nil =>
    intro _ l c rest
    refine ⟨l, c + 2, ?_⟩
    rw [List.nil_append, skipIns.eq_def]
    simp
  | cons b t ih =>
    intro hcc l c rest
    rw [hasCloseComment] at hcc
    simp only [Bool.or_eq_false_iff, Bool.and_eq_false_iff] at hcc
    by_cases hb : b = 42
    · subst hb
      cases t with
      | nil =>
        refine ⟨l, c + 3, ?_⟩
        rw [List.cons_append, List.nil_append]
        simp [skipIns]
      | cons x t' =>
        have hx : (x == 47) = false := by
          rcases hcc.1 with h | h
          · simp at h
          · simpa using h
        obtain ⟨l2, c2, he⟩ := ih hcc.2 l (c + 1) rest
        refine ⟨l2, c2, ?_⟩
        rw [List.cons_append, skipIns.eq_def]
        simp only [List.cons_append]
        simp [hx]
        split
        · rename_i rest2 heq
          rw [List.cons.injEq] at heq
          exact absurd heq.1 (by simpa using hx)
        · exact he
    · by_cases h10 : b = 10
      · subst h10
        obtain ⟨l2, c2, he⟩ := ih hcc.2 (l + 1) 1 rest
        refine ⟨l2, c2, ?_⟩
        rw [List.cons_append, skipIns.eq_def]
        simp
        exact he
      · obtain ⟨l2, c2, he⟩ := ih hcc.2 l (c + 1) rest
        refine ⟨l2, c2, ?_⟩
        rw [List.cons_append, skipIns.eq_def]
        simp [hb, h10]
        exact he

theorem skipIns_block (txt : List Nat) (hcc : hasCloseComment txt = false)
    (l c : Nat) (rest : List Nat) : ∃ l2 c2,
    skipIns .normal l c (47 :: 42 :: (txt ++ 42 :: 47 :: rest)) =
      skipIns .normal l2 c2 rest := by
  obtain ⟨l2, c2, he⟩ := skipIns_inBlock_close txt hcc l (c + 2) rest
  refine ⟨l2, c2, ?_⟩
  rw [skipIns.eq_def]
  simp [isWsChar]
  exact he

theorem skipIns_inLine_nl : ∀ (txt : List Nat), (∀ b ∈ txt, b ≠ 10) →
    ∀ (l c : Nat) (rest : List Nat),
      skipIns .inLine l c (txt ++ 10 :: rest) = skipIns .normal (l + 1) 1 rest := by
  intro txt
  induction txt with
  | nil =>
    intro _ l c rest
    rw [List.nil_append, skipIns.eq_def]
    simp
  | cons b t ih =>
    intro hnl l c rest
    have hb : b ≠ 10 := hnl b (by simp)
    rw [List.cons_append, skipIns.eq_def]
    simp [hb]
    exact ih (fun x hx => hnl x (by simp [hx])) l (c + 1) rest

theorem skipIns_lineComment (txt : List Nat) (hnl : ∀ b ∈ txt, b ≠ 10)
    (l c : Nat) (rest : List Nat) :
    skipIns .normal l c (47 :: 47 :: (txt ++ 10 :: rest)) =
      skipIns .normal (l + 1) 1 rest := by
  rw [skipIns.eq_def]
  simp [isWsChar]
  exact skipIns_inLine_nl txt hnl l (c + 2) rest

theorem skipIns_inLine_eof : ∀ (txt : List Nat), (∀ b ∈ txt, b ≠ 10) →
    ∀ (l c : Nat), ∃ c2, skipIns .inLine l c txt = .ok (l, c2, []) := by
  intro txt
  induction txt with
  | nil =>
    intro _ l c
    exact ⟨c, by rw [skipIns.eq_def]⟩
  | cons b t ih =>
    intro hnl l c
    have hb : b ≠ 10 := hnl b (by simp)
    obtain ⟨c2, he⟩ := ih (fun x hx => hnl x (by simp [hx])) l (c + 1)
    refine ⟨c2, ?_⟩
    rw [skipIns.eq_def]
    simp [hb]
    exact he

theorem skipIns_lineComment_eof (txt : List Nat) (hnl : ∀ b ∈ txt, b ≠ 10)
    (l c : Nat) : ∃ c2, skipIns .normal l c (47 :: 47 :: txt) = .ok (l, c2, []) := by
  obtain ⟨c2, he⟩ := skipIns_inLine_eof txt hnl l (c + 2)
  refine ⟨c2, ?_⟩
  rw [skipIns.eq_def]
  simp [isWsChar]
  exact he

/-- C8: block comments with any non-terminating body and line comments with
any newline-free body are skipped transparently by the insignificant-content
skipper (which runs wherever whitespace is permitted), a line comment may
run to end of input, and the concrete commented inputs parse to the
comment-free values for every option setting. -/
theorem claim_C8 :
    (∀ (txt : List Nat), hasCloseComment txt = false →
       ∀ (l c : Nat) (rest : List Nat), ∃ l2 c2,
         skipIns .normal l c (47 :: 42 :: (txt ++ 42 :: 47 :: rest)) =
           skipIns .normal l2 c2 rest) ∧
    (∀ (txt : List Nat), (∀ b ∈ txt, b ≠ 10) →
       ∀ (l c : Nat) (rest : List Nat),
         skipIns .normal l c (47 :: 47 :: (txt ++ 10 :: rest)) =
           skipIns .normal (l + 1) 1 rest) ∧
    (∀ (txt : List Nat), (∀ b ∈ txt, b ≠ 10) →
       ∀ (l c : Nat), ∃ c2, skipIns .normal l c (47 :: 47 :: txt) = .ok (l, c2, [])) ∧
    (∀ tc, JsonToValue (("/* comment */null").toBytes) false tc = .ok .nullV) ∧
    (∀ tc, JsonToValue (("40 /* comment */").toBytes) false tc = .ok (.integer 40)) ∧
    (∀ tc, JsonToValue (("true // comment").toBytes) false tc = .ok (.boolean true)) ∧
    (∀ tc, Read (("[1, /* comment, 2 ] */ \n 3]").toBytes) tc =
       .ok (.list [.integer 1, .integer 3])) :=
  ⟨skipIns_block, skipIns_lineComment, skipIns_lineComment_eof,
   fun tc => rfl, fun tc => rfl, fun tc => rfl, fun tc => rfl⟩

/-- Witness for C8: the three general comment-skipping rules evaluated on
concrete comment bodies. -/
theorem claim_C8_witness :
    (∃ l2 c2, skipIns .normal 1 1 (47 :: 42 :: (([32, 99] : List Nat) ++ 42 :: 47 :: [110])) =
       skipIns .normal l2 c2 [110]) ∧
    skipIns .normal 1 1 (47 :: 47 :: (([32] : List Nat) ++ 10 :: [52])) =
      skipIns .normal 2 1 [52] ∧
    (∃ c2, skipIns .normal 1 5 (47 :: 47 :: ([32, 99] : List Nat)) = .ok (1, c2, [])) :=
  ⟨claim_C8.1 [32, 99] (by decide) 1 1 [110],
   claim_C8.2.1 [32] (by decide) 1 1 [52],
   claim_C8.2.2.1 [32, 99] (by decide) 1 5⟩

theorem hexChar_isHexDig (m : Nat) (h : m < 16) : isHexDig (uEsc.hexChar m) = true := by
  rw [uEsc.hexChar]
  by_cases h10 : m < 10
  · rw [if_pos h10]
    simp [isHexDig]
    omega
  · rw [if_neg h10]
    simp [isHexDig]
    omega

theorem hexChar_val (m : Nat) (h : m < 16) : hexVal (uEsc.hexChar m) = m := by
  rw [uEsc.hexChar, hexVal]
  by_cases h10 : m < 10
  · rw [if_pos h10, if_pos (by omega)]
    omega
  · rw [if_neg h10, if_neg (by omega), if_pos (by omega)]
    omega

theorem parseStr_serStr : ∀ (s : List Nat), s.all bmpOk = true →
    ∀ (l c : Nat) (rest acc : List Nat),
    ∃ c2, parseStr l c ((s.map uEsc).flatten ++ 34 :: rest) acc =
      .ok (acc ++ s, l, c2, rest) := by
  intro s
  induction s with
  | nil =>
    intro _ l c rest acc
    refine ⟨c + 1, ?_⟩
    rw [List.map_nil, List.flatten_nil, List.nil_append, parseStr]
    simp
  | cons u s' ih =>
    intro hall l c rest acc
    rw [List.all_cons, Bool.and_eq_true] at hall
    have hu16 : u ≤ 0xFFFF ∧ ¬(0xD800 ≤ u ∧ u ≤ 0xDFFF) := by
      have := hall.1
      simp only [bmpOk, Bool.and_eq_true, decide_eq_true_eq, Bool.not_eq_true',
        Bool.and_eq_false_iff, decide_eq_false_iff_not] at this
      omega
    have hval : 4096 * hexVal (uEsc.hexChar (u / 4096 % 16)) +
        256 * hexVal (uEsc.hexChar (u / 256 % 16)) +
        16 * hexVal (uEsc.hexChar (u / 16 % 16)) + hexVal (uEsc.hexChar (u % 16)) = u := by
      rw [hexChar_val _ (by omega), hexChar_val _ (by omega),
        hexChar_val _ (by omega), hexChar_val _ (by omega)]
      omega
    rw [List.map_cons, List.flatten_cons, uEsc]
    simp only [List.cons_append, List.nil_append, List.append_assoc]
    rw [parseStr_uEsc _ _ _ _ (hexChar_isHexDig _ (by omega)) (hexChar_isHexDig _ (by omega))
      (hexChar_isHexDig _ (by omega)) (hexChar_isHexDig _ (by omega)) (by rw [hval]; exact hu16.2)]
    rw [hval]
    obtain ⟨c2, he⟩ := ih hall.2 l (c + 6) rest (acc ++ [u])
    refine ⟨c2, ?_⟩
    rw [he]
    simp

theorem parseValue_dash (fuel : Nat) (tc : Bool) (dep l c : Nat) (X : List Nat) :
    parseValue fuel tc dep l c (45 :: X) = parseNumber l c (45 :: X) := by
  rw [parseValue] <;> first
    | rw [if_pos (by decide)]
    | (intros; omega)

theorem parseNumber_negDigs (m l c : Nat) (rest : List Nat) (hm : 1 ≤ m)
    (hsmall : m ≤ 2147483648) (hr : headSep rest = true) :
    ∃ c2, parseNumber l c (45 :: (JSONReader.natDigs m ++ rest)) =
      .ok (.integer (-(m : Int)), l, c2, rest) := by
  obtain ⟨hh1, hh2, hh3, hh4⟩ := headSep_heads rest hr
  have hda := natDigsAux_digits (m + 1) m (by omega)
  obtain ⟨d, ds, heq, hd1, hd2⟩ := natDigsAux_head (m + 1) m (by omega) hm
  have heq' : JSONReader.natDigs m = d :: ds := by rw [JSONReader.natDigs]; exact heq
  have hds : ∀ x ∈ ds, 48 ≤ x ∧ x ≤ 57 := by
    intro x hx
    exact hda x (by rw [heq]; simp [hx])
  have hval : natOfDigits (d :: ds) = m := by
    rw [← heq', JSONReader.natDigs]
    exact natDigsAux_ofDigits (m + 1) m (by omega)
  rw [heq', parseNumber]
  simp only [List.cons_append, List.tail_cons, headIs_cons,
    show ((45 : Nat) == 45) = true from rfl,
    show (d == 45) = false from by simp; omega,
    show (d == 48) = false from by simp; omega,
    show isDigit d = true from by simp [isDigit]; omega,
    Bool.false_eq_true, if_false, if_true]
  rw [takeDigits_append ds rest hds hr]
  simp only [hh2, hh3, hh4, Bool.false_eq_true, if_false, Bool.or_self, List.isEmpty_nil,
    Bool.and_self, if_true, hval]
  rw [if_pos (by simp; omega)]
  exact ⟨_, rfl⟩

theorem parseValue_serInt (i : Int) (h1 : -2147483648 ≤ i) (h2 : i ≤ 2147483647)
    (fuel : Nat) (tc : Bool) (dep l c : Nat) (rest : List Nat) (hr : headSep rest = true) :
    ∃ c2, parseValue fuel tc dep l c (serInt i ++ rest) = .ok (.integer i, l, c2, rest) := by
  rw [serInt]
  by_cases hneg : i < 0
  · rw [if_pos hneg]
    rw [List.cons_append, parseValue_dash]
    obtain ⟨c2, he⟩ := parseNumber_negDigs i.natAbs l c rest (by omega) (by omega) hr
    refine ⟨c2, ?_⟩
    rw [he]
    have : -((i.natAbs : Nat) : Int) = i := by omega
    rw [this]
  · rw [if_neg hneg]
    obtain ⟨d, ds, heq, hd1, hd2⟩ :
        ∃ d ds, JSONReader.natDigs i.natAbs = d :: ds ∧ 48 ≤ d ∧ d ≤ 57 := by
      rcases Nat.eq_zero_or_pos i.natAbs with hz | hp
      · exact ⟨48, [], by rw [hz]; rfl, by omega, by omega⟩
      · obtain ⟨d, ds, heq, hh1, hh2⟩ := natDigsAux_head (i.natAbs + 1) i.natAbs (by omega) hp
        exact ⟨d, ds, by rw [JSONReader.natDigs]; exact heq, by omega, hh2⟩
    rw [heq, List.cons_append, parseValue_digit d hd1 hd2, ← List.cons_append, ← heq,
      parseNumber_natDigs i.natAbs l c rest hr (by omega)]
    rw [if_pos (by omega)]
    have : ((i.natAbs : Nat) : Int) = i := by omega
    rw [this]
    exact ⟨_, rfl⟩

theorem serVF_head (n : Nat) (tcF : Bool) (v : Value) (d : Nat) (hw : wfVF n d v = true) :
    ∃ b t, serVF n tcF v = b :: t ∧ isWsChar b = false ∧ b ≠ 47 ∧ b ≠ 93 ∧ b ≠ 125 ∧
      b ≠ 44 := by
  cases v with
  | nullV => exact ⟨110, _, by rw [serVF], by decide, by decide, by decide, by decide, by decide⟩
  | boolean b =>
    cases b with
    | true => exact ⟨116, _, by rw [serVF], by decide, by decide, by decide, by decide, by decide⟩
    | false => exact ⟨102, _, by rw [serVF], by decide, by decide, by decide, by decide, by decide⟩
  | integer i =>
    by_cases hneg : i < 0
    · exact ⟨45, _, by rw [serVF, serInt, if_pos hneg], by decide, by decide, by decide,
        by decide, by decide⟩
    · obtain ⟨b, t, heq, hb1, hb2⟩ :
          ∃ b t, JSONReader.natDigs i.natAbs = b :: t ∧ 48 ≤ b ∧ b ≤ 57 := by
        rcases Nat.eq_zero_or_pos i.natAbs with hz | hp
        · exact ⟨48, [], by rw [hz]; rfl, by omega, by omega⟩
        · obtain ⟨b, t, heq, hh1, hh2⟩ := natDigsAux_head (i.natAbs + 1) i.natAbs (by omega) hp
          exact ⟨b, t, by rw [JSONReader.natDigs]; exact heq, by omega, hh2⟩
      refine ⟨b, t, by rw [serVF, serInt, if_neg hneg]; exact heq, ?_, ?_, ?_, ?_, ?_⟩ <;>
        (simp [isWsChar]; omega)
  | double q => rw [wfVF] at hw; cases hw
  | str s => exact ⟨34, (s.map uEsc).flatten ++ [34], by rw [serVF]; simp [serStrBytes],
      by decide, by decide, by decide, by decide, by decide⟩
  | list vs =>
    cases n with
    | zero => rw [wfVF] at hw; cases hw
    | succ f => exact ⟨91, _, by rw [serVF], by decide, by decide, by decide, by decide,
        by decide⟩
  | dict kvs =>
    cases n with
    | zero => rw [wfVF] at hw; cases hw
    | succ f => exact ⟨123, _, by rw [serVF], by decide, by decide, by decide, by decide,
        by decide⟩

theorem keyLt_irrefl : ∀ a, keyLt a a = false := by
  intro a
  induction a with
  | nil => rfl
  | cons x xs ih =>
    rw [keyLt]
    simp [ih]

theorem keyLt_asymm : ∀ a b, keyLt a b = true → keyLt b a = false := by
  intro a
  induction a with
  | nil =>
    intro b hab
    cases b with
    | nil => cases hab
    | cons y ys => rfl
  | cons x xs ih =>
    intro b hab
    cases b with
    | nil => cases hab
    | cons y ys =>
      rw [keyLt] at hab ⊢
      split_ifs at hab ⊢ <;> first | rfl | omega | exact ih ys hab | cases hab

theorem keyLt_ne : ∀ a b, keyLt a b = true → b ≠ a := by
  intro a b hab heq
  subst heq
  rw [keyLt_irrefl] at hab
  cases hab

theorem keyLt_trans : ∀ a b c, keyLt a b = true → keyLt b c = true → keyLt a c = true := by
  intro a
  induction a with
  | nil =>
    intro b c hab hbc
    cases b with
    | nil => cases hab
    | cons y ys =>
      cases c with
      | nil => cases hbc
      | cons z zs => rfl
  | cons x xs ih =>
    intro b c hab hbc
    cases b with
    | nil => cases hab
    | cons y ys =>
      cases c with
      | nil => cases hbc
      | cons z zs =>
        rw [keyLt] at hab hbc ⊢
        split_ifs at hab hbc ⊢ <;>
          first | rfl | omega | exact ih ys zs hab hbc | cases hab | cases hbc

theorem dictInsert_append : ∀ (acc : List (List Nat × Value)) (k : List Nat) (v : Value),
    (∀ p ∈ acc, keyLt p.1 k = true) → dictInsert acc k v = acc ++ [(k, v)] := by
  intro acc
  induction acc with
  | nil => intro k v _; rfl
  | cons p t ih =>
    intro k v hlt
    obtain ⟨k', v'⟩ := p
    have h1 : keyLt k' k = true := hlt (k', v') (by simp)
    rw [dictInsert, if_neg (keyLt_ne k' k h1), if_neg (by rw [keyLt_asymm k' k h1]; simp),
      ih k v (fun q hq => hlt q (by simp [hq]))]
    rfl

theorem sortedK_cons : ∀ (t : List (List Nat × Value)) (k : List Nat) (v : Value),
    sortedK ((k, v) :: t) = true →
    sortedK t = true ∧ ∀ q ∈ t, keyLt k q.1 = true := by
  intro t
  induction t with
  | nil => intro k v _; exact ⟨rfl, by simp⟩
  | cons p t' ih =>
    intro k v hs
    obtain ⟨k2, v2⟩ := p
    rw [sortedK, Bool.and_eq_true] at hs
    obtain ⟨hlt, hs'⟩ := hs
    obtain ⟨hst', hall⟩ := ih k2 v2 hs'
    refine ⟨hs', ?_⟩
    intro q hq
    rcases List.mem_cons.mp hq with rfl | hq'
    · exact hlt
    · exact keyLt_trans k k2 q.1 hlt (hall q hq')

theorem veq_refl_all : ∀ n : Nat,
    (∀ d v, wfVF n d v = true → veqF n v v = true) ∧
    (∀ d vs, wfLF n d vs = true → veqLF n vs vs = true) ∧
    (∀ d kvs, wfMF n d kvs = true → veqDF n kvs kvs = true) := by
  intro n
  induction n with
  | zero =>
    refine ⟨?_, ?_, ?_⟩
    · intro d v hw
      cases v with
      | nullV => rfl
      | boolean b => rw [veqF]; simp
      | integer i => rw [veqF]; simp
      | double q => rw [wfVF] at hw; cases hw
      | str s => rw [veqF]; simp
      | list vs => rw [wfVF] at hw; cases hw
      | dict kvs => rw [wfVF] at hw; cases hw
    · intro d vs hw
      cases vs with
      | nil => rfl
      | cons x t => rw [wfLF] at hw; cases hw
    · intro d kvs hw
      cases kvs with
      | nil => rfl
      | cons p t => obtain ⟨k, v⟩ := p; rw [wfMF] at hw; cases hw
  | succ f ih =>
    refine ⟨?_, ?_, ?_⟩
    · intro d v hw
      cases v with
      | nullV => rfl
      | boolean b => rw [veqF]; simp
      | integer i => rw [veqF]; simp
      | double q => rw [wfVF] at hw; cases hw
      | str s => rw [veqF]; simp
      | list vs =>
        rw [wfVF, Bool.and_eq_true] at hw
        rw [veqF]
        exact ih.2.1 (d + 1) vs hw.2
      | dict kvs =>
        rw [wfVF, Bool.and_eq_true, Bool.and_eq_true] at hw
        rw [veqF]
        exact ih.2.2 (d + 1) kvs hw.2
    · intro d vs hw
      cases vs with
      | nil => rfl
      | cons x t =>
        rw [wfLF, Bool.and_eq_true] at hw
        rw [veqLF]
        simp only [Bool.and_eq_true]
        exact ⟨ih.1 d x hw.1, ih.2.1 d t hw.2⟩
    · intro d kvs hw
      cases kvs with
      | nil => rfl
      | cons p t =>
        obtain ⟨k, v⟩ := p
        rw [wfMF, Bool.and_eq_true, Bool.and_eq_true] at hw
        rw [veqDF]
        simp only [Bool.and_eq_true]
        exact ⟨⟨by simp, ih.1 d v hw.1.2⟩, ih.2.2 d t hw.2⟩

theorem parse_serVF_scalar (n : Nat) (tcF : Bool) (v : Value) (d l c : Nat)
    (rest : List Nat) (fuel : Nat) (hw : wfVF n d v = true) (hnc : isContainer v = false)
    (hr : headSep rest = true) :
    ∃ c2, parseValue fuel true d l c (serVF n tcF v ++ rest) = .ok (v, l, c2, rest) := by
  cases v with
  | nullV =>
    refine ⟨c + 4, ?_⟩
    rw [serVF]
    simp only [List.cons_append, List.nil_append]
    rw [parseValue]
  | boolean b =>
    cases b with
    | true =>
      refine ⟨c + 4, ?_⟩
      rw [serVF]
      simp only [List.cons_append, List.nil_append]
      rw [parseValue]
    | false =>
      refine ⟨c + 5, ?_⟩
      rw [serVF]
      simp only [List.cons_append, List.nil_append]
      rw [parseValue]
  | integer i =>
    rw [wfVF] at hw
    simp only [Bool.and_eq_true, decide_eq_true_eq] at hw
    rw [serVF]
    exact parseValue_serInt i hw.1 hw.2 fuel true d l c rest hr
  | double q => rw [wfVF] at hw; cases hw
  | str s =>
    rw [wfVF] at hw
    have hin : serVF n tcF (.str s) ++ rest =
        34 :: ((s.map uEsc).flatten ++ 34 :: rest) := by
      rw [serVF, serStrBytes]
      simp
    rw [hin, parseValue_strHead]
    obtain ⟨c2, he⟩ := parseStr_serStr s hw l (c + 1) rest []
    refine ⟨c2, ?_⟩
    rw [he]
    simp
  | list vs => rw [isContainer] at hnc; cases hnc
  | dict kvs => rw [isContainer] at hnc; cases hnc

theorem headSep_sep44 (X : List Nat) : headSep (44 :: X) = true := rfl

theorem headSep_sep93 (X : List Nat) : headSep (93 :: X) = true := rfl

theorem headSep_sep125 (X : List Nat) : headSep (125 :: X) = true := rfl

theorem serLF_head (f : Nat) (tcF : Bool) (v2 : Value) (t' : List Value) (d : Nat)
    (hw : wfVF f d v2 = true) (Z : List Nat) :
    ∃ b Y, serLF (f + 1) tcF (v2 :: t') ++ Z = b :: Y ∧ isWsChar b = false ∧ b ≠ 47 ∧
      b ≠ 93 ∧ b ≠ 125 ∧ b ≠ 44 := by
  obtain ⟨b, tb, hs, h1, h2, h3, h4, h5⟩ := serVF_head f tcF v2 d hw
  cases t' with
  | nil =>
    exact ⟨b, tb ++ ((if tcF then [44] else []) ++ Z),
      by rw [serLF, hs]; simp, h1, h2, h3, h4, h5⟩
  | cons m t2 =>
    exact ⟨b, tb ++ (44 :: (serLF f tcF (m :: t2) ++ Z)),
      by rw [serLF, hs]; simp, h1, h2, h3, h4, h5⟩

theorem serMF_nil_eq (f : Nat) (tcF : Bool) (k : List Nat) (v : Value) (Z : List Nat) :
    serMF (f + 1) tcF [(k, v)] ++ Z =
      34 :: ((k.map uEsc).flatten ++
        34 :: (58 :: (serVF f tcF v ++ ((if tcF then [44] else []) ++ Z)))) := by
  rw [serMF, serStrBytes]
  simp

theorem serMF_cons_eq (f : Nat) (tcF : Bool) (k : List Nat) (v : Value)
    (m : List Nat × Value) (t2 : List (List Nat × Value)) (Z : List Nat) :
    serMF (f + 1) tcF ((k, v) :: m :: t2) ++ Z =
      34 :: ((k.map uEsc).flatten ++
        34 :: (58 :: (serVF f tcF v ++ (44 :: (serMF f tcF (m :: t2) ++ Z))))) := by
  rw [serMF, serStrBytes]
  simp

theorem roundtrip_all : ∀ n : Nat,
    (∀ (tcF : Bool) (v : Value) (d l c : Nat) (rest : List Nat) (fuel : Nat),
       wfVF n d v = true → headSep rest = true → (serVF n tcF v).length ≤ fuel →
       ∃ c2, parseValue fuel true d l c (serVF n tcF v ++ rest) = .ok (v, l, c2, rest)) ∧
    (∀ (tcF : Bool) (vs : List Value) (d l c : Nat) (rest : List Nat) (acc : List Value)
       (fuel : Nat),
       wfLF n d vs = true → vs ≠ [] → (serLF n tcF vs).length + 1 ≤ fuel →
       ∃ c2, parseArrayElems fuel true d l c (serLF n tcF vs ++ 93 :: rest) acc =
         .ok (.list (acc ++ vs), l, c2, rest)) ∧
    (∀ (tcF : Bool) (kvs : List (List Nat × Value)) (d l c : Nat) (rest : List Nat)
       (acc : List (List Nat × Value)) (fuel : Nat),
       wfMF n d kvs = true → kvs ≠ [] → sortedK kvs = true →
       (∀ p ∈ acc, ∀ q ∈ kvs, keyLt p.1 q.1 = true) →
       (serMF n tcF kvs).length + 1 ≤ fuel →
       ∃ c2, parseObjMembers fuel true d l c (serMF n tcF kvs ++ 125 :: rest) acc =
         .ok (.dict (acc ++ kvs), l, c2, rest)) := by
  intro n
  induction n with
  | zero =>
    refine ⟨?_, ?_, ?_⟩
    · intro tcF v d l c rest fuel hw hr hfuel
      have hnc : isContainer v = false := by
        cases v with
        | list vs => rw [wfVF] at hw; cases hw
        | dict kvs => rw [wfVF] at hw; cases hw
        | nullV => rfl
        | boolean b => rfl
        | integer i => rfl
        | double q => rfl
        | str s => rfl
      exact parse_serVF_scalar 0 tcF v d l c rest fuel hw hnc hr
    · intro tcF vs d l c rest acc fuel hw hne hfuel
      cases vs with
      | nil => exact absurd rfl hne
      | cons v1 t => rw [wfLF] at hw; cases hw
    · intro tcF kvs d l c rest acc fuel hw hne hs hacc hfuel
      cases kvs with
      | nil => exact absurd rfl hne
      | cons p t => obtain ⟨k, v⟩ := p; rw [wfMF] at hw; cases hw
  | succ f ih =>
    refine ⟨?_, ?_, ?_⟩
    · -- parseValue on a serialized value
      intro tcF v d l c rest fuel hw hr hfuel
      cases v with
      | nullV => exact parse_serVF_scalar (f + 1) tcF _ d l c rest fuel hw rfl hr
      | boolean b => exact parse_serVF_scalar (f + 1) tcF _ d l c rest fuel hw rfl hr
      | integer i => exact parse_serVF_scalar (f + 1) tcF _ d l c rest fuel hw rfl hr
      | double q => rw [wfVF] at hw; cases hw
      | str s => exact parse_serVF_scalar (f + 1) tcF _ d l c rest fuel hw rfl hr
      | list vs =>
        rw [wfVF, Bool.and_eq_true] at hw
        obtain ⟨hd', hwl⟩ := hw
        simp only [decide_eq_true_eq] at hd'
        have hin : serVF (f + 1) tcF (.list vs) ++ rest =
            91 :: (serLF f tcF vs ++ 93 :: rest) := by
          rw [serVF]
          simp
        have hlen : (serVF (f + 1) tcF (.list vs)).length =
            (serLF f tcF vs).length + 2 := by
          rw [serVF]
          simp
        rw [hin, parseValue, if_neg (by simp [maxDepth]; omega)]
        cases vs with
        | nil =>
          rw [show serLF f tcF [] = [] from by rw [serLF], List.nil_append,
            skipIns_sig l (c + 1) 93 rest (by decide) (by decide)]
          exact ⟨c + 2, rfl⟩
        | cons v1 t =>
          cases f with
          | zero => rw [wfLF] at hwl; cases hwl
          | succ g =>
            rw [wfLF, Bool.and_eq_true] at hwl
            obtain ⟨hw1, hwt⟩ := hwl
            obtain ⟨b, Y, hbY, hbw, hb47, hb93, hb125, hb44⟩ :=
              serLF_head g tcF v1 t (d + 1) hw1 (93 :: rest)
            rw [hbY, skipIns_sig l (c + 1) b Y hbw hb47]
            simp only
            split
            · rename_i r3 heq
              rw [List.cons.injEq] at heq
              exact absurd heq.1 hb93
            · cases fuel with
              | zero => rw [hlen] at hfuel; omega
              | succ fl =>
                rw [← hbY]
                have hQ := (ih.2.1 tcF (v1 :: t) (d + 1) l (c + 1) rest [] fl
                  (by rw [wfLF, Bool.and_eq_true]; exact ⟨hw1, hwt⟩) (by simp)
                  (by rw [hlen] at hfuel; omega))
                obtain ⟨c2, he⟩ := hQ
                rw [List.nil_append] at he
                exact ⟨c2, he⟩
      | dict kvs =>
        rw [wfVF, Bool.and_eq_true, Bool.and_eq_true] at hw
        obtain ⟨⟨hd', hsk⟩, hwm⟩ := hw
        simp only [decide_eq_true_eq] at hd'
        have hin : serVF (f + 1) tcF (.dict kvs) ++ rest =
            123 :: (serMF f tcF kvs ++ 125 :: rest) := by
          rw [serVF]
          simp
        have hlen : (serVF (f + 1) tcF (.dict kvs)).length =
            (serMF f tcF kvs).length + 2 := by
          rw [serVF]
          simp
        rw [hin, parseValue, if_neg (by simp [maxDepth]; omega)]
        cases kvs with
        | nil =>
          rw [show serMF f tcF [] = [] from by rw [serMF], List.nil_append,
            skipIns_sig l (c + 1) 125 rest (by decide) (by decide)]
          exact ⟨c + 2, rfl⟩
        | cons p t =>
          obtain ⟨k, v⟩ := p
          cases f with
          | zero => rw [wfMF] at hwm; cases hwm
          | succ g =>
            obtain ⟨Y, hbY⟩ : ∃ Y, serMF (g + 1) tcF ((k, v) :: t) ++ 125 :: rest =
                34 :: Y := by
              cases t with
              | nil => exact ⟨_, serMF_nil_eq g tcF k v (125 :: rest)⟩
              | cons m t2 => exact ⟨_, serMF_cons_eq g tcF k v m t2 (125 :: rest)⟩
            rw [hbY, skipIns_sig l (c + 1) 34 Y (by decide) (by decide)]
            simp only
            cases fuel with
            | zero => rw [hlen] at hfuel; omega
            | succ fl =>
              rw [← hbY]
              have hQ := (ih.2.2 tcF ((k, v) :: t) (d + 1) l (c + 1) rest [] fl
                hwm (by simp) hsk (by simp) (by rw [hlen] at hfuel; omega))
              obtain ⟨c2, he⟩ := hQ
              rw [List.nil_append] at he
              exact ⟨c2, he⟩
    · -- parseArrayElems on serialized elements
      intro tcF vs d l c rest acc fuel hw hne hfuel
      cases vs with
      | nil => exact absurd rfl hne
      | cons v1 t =>
        rw [wfLF, Bool.and_eq_true] at hw
        obtain ⟨hw1, hwt⟩ := hw
        cases fuel with
        | zero => omega
        | succ fl =>
          rw [parseArrayElems]
          simp only
          cases t with
          | nil =>
            have hin : serLF (f + 1) tcF [v1] ++ 93 :: rest =
                serVF f tcF v1 ++ ((if tcF then [44] else []) ++ 93 :: rest) := by
              rw [serLF]
              simp
            have hlen : (serLF (f + 1) tcF [v1]).length =
                (serVF f tcF v1).length + (if tcF then 1 else 0) := by
              rw [serLF]
              cases tcF <;> simp
            rw [hin]
            obtain ⟨c2, he⟩ := ih.1 tcF v1 d l c
              ((if tcF then [44] else []) ++ 93 :: rest) fl hw1
              (by cases tcF <;> rfl) (by rw [hlen] at hfuel; cases tcF <;> omega)
            rw [he]
            simp only
            cases tcF with
            | false =>
              simp only [Bool.false_eq_true, if_false, List.nil_append]
              rw [skipIns_sig l c2 93 rest (by decide) (by decide)]
              exact ⟨c2 + 1, rfl⟩
            | true =>
              simp only [eq_self_iff_true, if_true, List.singleton_append]
              rw [skipIns_sig l c2 44 (93 :: rest) (by decide) (by decide)]
              simp only
              rw [skipIns_sig l (c2 + 1) 93 rest (by decide) (by decide)]
              simp only [eq_self_iff_true, if_true]
              exact ⟨c2 + 2, rfl⟩
          | cons v2 t' =>
            have hin : serLF (f + 1) tcF (v1 :: v2 :: t') ++ 93 :: rest =
                serVF f tcF v1 ++ (44 :: (serLF f tcF (v2 :: t') ++ 93 :: rest)) := by
              rw [serLF]
              simp
            have hlen : (serLF (f + 1) tcF (v1 :: v2 :: t')).length =
                (serVF f tcF v1).length + 1 + (serLF f tcF (v2 :: t')).length := by
              rw [serLF]
              simp
              omega
            rw [hin]
            obtain ⟨c2, he⟩ := ih.1 tcF v1 d l c
              (44 :: (serLF f tcF (v2 :: t') ++ 93 :: rest)) fl hw1
              rfl (by rw [hlen] at hfuel; omega)
            rw [he]
            simp only
            rw [skipIns_sig l c2 44 (serLF f tcF (v2 :: t') ++ 93 :: rest)
              (by decide) (by decide)]
            simp only
            cases f with
            | zero => rw [wfLF] at hwt; cases hwt
            | succ g =>
              have hwt' := hwt
              rw [wfLF, Bool.and_eq_true] at hwt'
              obtain ⟨b, Y, hbY, hbw, hb47, hb93, hb125, hb44⟩ :=
                serLF_head g tcF v2 t' d hwt'.1 (93 :: rest)
              rw [hbY, skipIns_sig l (c2 + 1) b Y hbw hb47]
              simp only
              split
              · rename_i r6 heq
                rw [List.cons.injEq] at heq
                exact absurd heq.1 hb93
              · rw [← hbY]
                obtain ⟨c3, he2⟩ := ih.2.1 tcF (v2 :: t') d l (c2 + 1) rest
                  (acc ++ [v1]) fl hwt (by simp) (by rw [hlen] at hfuel; omega)
                refine ⟨c3, ?_⟩
                rw [he2]
                simp
    · -- parseObjMembers on serialized members
      intro tcF kvs d l c rest acc fuel hw hne hs hacc hfuel
      cases kvs with
      | nil => exact absurd rfl hne
      | cons p t =>
        obtain ⟨k, v⟩ := p
        rw [wfMF, Bool.and_eq_true, Bool.and_eq_true] at hw
        obtain ⟨⟨hkb, hwv⟩, hwt⟩ := hw
        have hacck : ∀ p ∈ acc, keyLt p.1 k = true := by
          intro p hp
          exact hacc p hp (k, v) (by simp)
        have hdins : dictInsert acc k v = acc ++ [(k, v)] := dictInsert_append acc k v hacck
        obtain ⟨hst, hklt⟩ := sortedK_cons t k v hs
        cases fuel with
        | zero => omega
        | succ fl =>
          rw [parseObjMembers.eq_def]
          simp only
          cases t with
          | nil =>
            have hlen : (serMF (f + 1) tcF [(k, v)]).length =
                (serStrBytes k).length + 1 + (serVF f tcF v).length +
                  (if tcF then 1 else 0) := by
              rw [serMF]
              cases tcF <;> (simp; omega)
            rw [serMF_nil_eq f tcF k v (125 :: rest)]
            simp only
            obtain ⟨ck, hek⟩ := parseStr_serStr k hkb l (c + 1)
              (58 :: (serVF f tcF v ++ ((if tcF then [44] else []) ++ 125 :: rest))) []
            rw [hek]
            simp only [List.nil_append]
            rw [skipIns_sig l ck 58 _ (by decide) (by decide)]
            simp only
            obtain ⟨bv, tbv, hbv, hbvw, hbv47, hbv93, hbv125, hbv44⟩ :=
              serVF_head f tcF v d hwv
            rw [hbv]
            simp only [List.cons_append]
            rw [skipIns_sig l (ck + 1) bv _ hbvw hbv47]
            simp only
            rw [← List.cons_append, ← hbv]
            obtain ⟨c2, he⟩ := ih.1 tcF v d l (ck + 1)
              ((if tcF then [44] else []) ++ 125 :: rest) fl hwv
              (by cases tcF <;> rfl)
              (by rw [hlen] at hfuel; rw [serStrBytes] at hfuel; cases tcF <;>
                (simp at hfuel; omega))
            rw [he]
            simp only
            cases tcF with
            | false =>
              simp only [Bool.false_eq_true, if_false, List.nil_append]
              rw [skipIns_sig l c2 125 rest (by decide) (by decide)]
              simp only
              rw [hdins]
              exact ⟨c2 + 1, rfl⟩
            | true =>
              simp only [eq_self_iff_true, if_true, List.singleton_append]
              rw [skipIns_sig l c2 44 (125 :: rest) (by decide) (by decide)]
              simp only
              rw [skipIns_sig l (c2 + 1) 125 rest (by decide) (by decide)]
              simp only [eq_self_iff_true, if_true]
              rw [hdins]
              exact ⟨c2 + 2, rfl⟩
          | cons m t2 =>
            have hlen : (serMF (f + 1) tcF ((k, v) :: m :: t2)).length =
                (serStrBytes k).length + 1 + (serVF f tcF v).length + 1 +
                  (serMF f tcF (m :: t2)).length := by
              rw [serMF]
              simp
              omega
            rw [serMF_cons_eq f tcF k v m t2 (125 :: rest)]
            simp only
            obtain ⟨ck, hek⟩ := parseStr_serStr k hkb l (c + 1)
              (58 :: (serVF f tcF v ++ (44 :: (serMF f tcF (m :: t2) ++ 125 :: rest)))) []
            rw [hek]
            simp only [List.nil_append]
            rw [skipIns_sig l ck 58 _ (by decide) (by decide)]
            simp only
            obtain ⟨bv, tbv, hbv, hbvw, hbv47, hbv93, hbv125, hbv44⟩ :=
              serVF_head f tcF v d hwv
            rw [hbv]
            simp only [List.cons_append]
            rw [skipIns_sig l (ck + 1) bv _ hbvw hbv47]
            simp only
            rw [← List.cons_append, ← hbv]
            obtain ⟨c2, he⟩ := ih.1 tcF v d l (ck + 1)
              (44 :: (serMF f tcF (m :: t2) ++ 125 :: rest)) fl hwv rfl
              (by rw [hlen] at hfuel; omega)
            rw [he]
            simp only
            rw [skipIns_sig l c2 44 (serMF f tcF (m :: t2) ++ 125 :: rest)
              (by decide) (by decide)]
            simp only
            obtain ⟨m1, m2⟩ := m
            cases f with
            | zero => rw [wfMF] at hwt; cases hwt
            | succ g =>
              obtain ⟨Y, hbY⟩ : ∃ Y, serMF (g + 1) tcF ((m1, m2) :: t2) ++ 125 :: rest =
                  34 :: Y := by
                cases t2 with
                | nil => exact ⟨_, serMF_nil_eq g tcF m1 m2 (125 :: rest)⟩
                | cons m3 t3 => exact ⟨_, serMF_cons_eq g tcF m1 m2 m3 t3 (125 :: rest)⟩
              rw [hbY, skipIns_sig l (c2 + 1) 34 Y (by decide) (by decide)]
              simp only
              rw [← hbY, hdins]
              have hacc' : ∀ p ∈ acc ++ [(k, v)], ∀ q ∈ (m1, m2) :: t2,
                  keyLt p.1 q.1 = true := by
                intro p hp q hq
                rcases List.mem_append.mp hp with hp' | hp'
                · exact hacc p hp' q (by simp [hq])
                · rw [List.mem_singleton] at hp'
                  subst hp'
                  exact hklt q hq
              obtain ⟨c3, he2⟩ := ih.2.2 tcF ((m1, m2) :: t2) d l (c2 + 1) rest
                (acc ++ [(k, v)]) fl hwt (by simp) hst hacc'
                (by rw [hlen] at hfuel; omega)
              refine ⟨c3, ?_⟩
              rw [he2]
              simp

theorem read_serVF (n : Nat) (tcF : Bool) (v : Value)
    (hw : wfVF n 0 v = true) (hc : isContainer v = true) :
    Read (serVF n tcF v) true = .ok v := by
  obtain ⟨b, tb, hserh, hbw, hb47, hb93, hb125, hb44⟩ := serVF_head n tcF v 0 hw
  rw [Read, JsonToValue, hserh, skipIns_sig 1 1 b tb hbw hb47]
  simp only
  rw [← hserh, ← List.append_nil (serVF n tcF v)]
  obtain ⟨c2, he⟩ := (roundtrip_all n).1 tcF v 0 1 1 []
    (2 * (serVF n tcF v ++ []).length + 2) hw rfl (by simp; omega)
  rw [he]
  simp only [hc]
  simp [skipIns]

/-- C6 is refuted as stated: the empty array `[]` parses successfully with
allow_trailing_comma=true, but its variant `[,]` with a trailing comma
inserted before the closing bracket fails to parse at all (a comma with no
preceding element is an empty element, which is never permitted), so the two
parses cannot yield structurally equal trees for every successfully parsing
input. -/
theorem claim_C6_counterexample :
    Read (("[]").toBytes) true = .ok (.list []) ∧
    ∃ e, Read (("[,]").toBytes) true = .error e :=
  ⟨rfl, ⟨.syntaxError, 1, 2⟩, rfl⟩

/-- C6 (amended): for every well-formed value tree whose root is a container,
the rendering without trailing commas and the variant rendering with a single
trailing comma inserted before the closing bracket/brace of each non-empty
container both parse back (with allow_trailing_comma=true) to that same tree,
and the two resulting trees are structurally equal (`Equals`).  The amendment
restricts the trailing-comma insertion to non-empty containers: inserting a
comma into an empty container always fails. -/
theorem claim_C6 : ∀ (n : Nat) (v : Value), wfVF n 0 v = true → isContainer v = true →
    Read (serVF n false v) true = .ok v ∧ Read (serVF n true v) true = .ok v ∧
      Equals v v :=
  fun n v hw hc => ⟨read_serVF n false v hw hc, read_serVF n true v hw hc,
    ⟨n, (veq_refl_all n).1 0 v hw⟩⟩

/-- Witness for C6: the amended roundtrip evaluated on the one-element array
`[5]` (rendered `[5]` and `[5,]`). -/
theorem claim_C6_witness :
    Read (serVF 2 false (.list [.integer 5])) true = .ok (.list [.integer 5]) ∧
    Read (serVF 2 true (.list [.integer 5])) true = .ok (.list [.integer 5]) ∧
    Equals (.list [.integer 5]) (.list [.integer 5]) :=
  claim_C6 2 (.list [.integer 5]) (by decide) rfl
